import Mathlib

set_option autoImplicit false

/-!
Shallow embedding of the boa engine execution core: the VM value model, the
opcode operations for binary operators (`In`, the equality opcodes and the
macro-defined family), the increment opcodes (`ToNumeric`, `Inc`, `IncPost`),
`RestParameterInit`, `SetClassPrototype`, the three operand-width decode
variants, and the byte-compiler lowering of binary expressions.

Pure Rust functions become Lean functions; the mutable `Context`/`Vm` becomes
an explicit `Ctx` state threaded through each operation; `JsResult` becomes
`Except`; a Rust `unreachable!`/`expect` panic becomes `Option.none`.
Collaborator code that is not part of the sampled core (the object model, the
value coercions, the call-frame layout, the register allocator) is modelled
from the spec, as marked on each such definition.
-/

namespace Boa

/-- Floating-point values (`f64`), modelled exactly: a finite rational or one
of the special values. The sampled opcodes only add `1.0`, which is exact on
all inputs they can receive, so no rounding model is needed. -/
inductive FloatVal where
  | finite (q : ℚ)
  | nan
  | inf
  | negInf
  deriving DecidableEq, Repr

/-- `x + 1f64` on the float model. -/
def FloatVal.addOne : FloatVal → FloatVal
  | .finite q => .finite (q + 1)
  | .nan => .nan
  | .inf => .inf
  | .negInf => .negInf

/-- Float equality as in `==` on `f64`: `NaN` is not equal to anything. -/
def FloatVal.straightEq : FloatVal → FloatVal → Bool
  | .finite q, .finite r => q == r
  | .inf, .inf => true
  | .negInf, .negInf => true
  | _, _ => false

/-- `JsValue`: the engine value type. `integer` is the `i32` fast-path
variant, `rational` the `f64` variant, `bigint` the arbitrary-precision
variant, `object` a heap reference by id. -/
inductive JsValue where
  | undefined
  | null
  | boolean (b : Bool)
  | integer (n : Int)
  | rational (f : FloatVal)
  | bigint (n : Int)
  | string (s : String)
  | object (id : Nat)
  deriving DecidableEq, Repr

/-- The `Numeric` result of `to_numeric`: a Number or a BigInt. -/
inductive Numeric where
  | number (f : FloatVal)
  | bigInt (n : Int)
  deriving DecidableEq, Repr

/-- Conversion of a `Numeric` back into a `JsValue` (`value.into()`). -/
def numericToValue : Numeric → JsValue
  | .number f => .rational f
  | .bigInt n => .bigint n

/-- A property descriptor with its three attribute flags. -/
structure PropDesc where
  value : JsValue
  writable : Bool
  enumerable : Bool
  configurable : Bool
  deriving DecidableEq, Repr

/-- Modelled from the spec: a heap object of the external object-model
collaborator, with the features the sampled opcodes touch: a prototype link
(`none` is a null prototype), named own properties, function home-object
state, array elements, and the primitive values user-visible coercion would
produce (`numericValue` for `valueOf`-style numeric coercion, `keyValue` for
property-key coercion); `none` there means the coercion throws. -/
structure Obj where
  proto : Option Nat
  props : List (String × PropDesc)
  isFunction : Bool
  homeObject : Option Nat
  elements : List JsValue
  numericValue : Option Numeric
  keyValue : Option String
  deriving DecidableEq, Repr

/-- An ordinary plain object with the given prototype. -/
def mkOrdinaryObj (proto : Option Nat) : Obj :=
  { proto := proto, props := [], isFunction := false, homeObject := none,
    elements := [], numericValue := none, keyValue := none }

/-- An array-like object holding the given elements
(`Array::create_array_from_list` / `Array::array_create`). -/
def mkArrayObj (elems : List JsValue) : Obj :=
  { proto := none, props := [], isFunction := false, homeObject := none,
    elements := elems, numericValue := none, keyValue := none }

/-- The heap: objects addressed by index; allocation appends. -/
abbrev Heap := List Obj

def Heap.getObj (h : Heap) (id : Nat) : Option Obj := h.get? id

def Heap.allocObj (h : Heap) (o : Obj) : Nat × Heap := (h.length, h ++ [o])

/-- Define (or overwrite) an own property of an object. -/
def Obj.setProp (o : Obj) (k : String) (d : PropDesc) : Obj :=
  { o with props := (o.props.filter (fun p => p.1 ≠ k)) ++ [(k, d)] }

def Obj.getProp (o : Obj) (k : String) : Option PropDesc :=
  (o.props.find? (fun p => p.1 == k)).map Prod.snd

def Heap.setProp (h : Heap) (id : Nat) (k : String) (d : PropDesc) : Heap :=
  match h.get? id with
  | some o => h.set id (o.setProp k d)
  | none => h

def Heap.setHome (h : Heap) (id : Nat) (home : Nat) : Heap :=
  match h.get? id with
  | some o => h.set id { o with homeObject := some home }
  | none => h

/-- Language-level errors; the sampled opcodes only raise type errors
(`JsNativeError::typ()`). An `Except.error` carrying one of these is the
Throw completion. -/
inductive JsError where
  | typeError (msg : String)
  deriving DecidableEq, Repr

/-- The completion signal of one instruction (`CompletionType`); errors
travel separately in the `Except` layer. -/
inductive CompletionType where
  | normal
  | ret
  deriving DecidableEq, Repr

/-- Observable coercion events: user-visible side effects of converting a
value to a property key or to a numeric value. The log of these events is
how the embedding states that a coercion was or was not invoked. -/
inductive Event where
  | keyCoerce (v : JsValue)
  | numCoerce (v : JsValue)
  deriving DecidableEq, Repr

/-- The side-effect state visible to language-level value operations: the
heap and the log of observable coercion events. -/
structure Eff where
  heap : Heap
  log : List Event
  deriving DecidableEq, Repr

/-- Modelled from the spec: the compiled `CodeBlock` fields the sampled
opcodes read: register count, declared parameter count (rest included), and
the constant pool. -/
structure CodeBlock where
  register_count : Nat
  param_count : Nat
  constants : List JsValue
  deriving DecidableEq, Repr

/-- Modelled from the spec: the call frame, holding the base pointer `rp`
into the shared value stack and the mutable effective argument count. The
frame's arguments sit directly below `rp` and its register window starts at
`rp` (register `i` lives at stack index `rp + i`). -/
structure Frame where
  rp : Nat
  argument_count : Nat
  code : CodeBlock
  deriving DecidableEq, Repr

/-- The execution context: the shared value stack (top of stack is the last
list element), the active frame, the effect state, and the realm's base
object prototype (`context.intrinsics().constructors().object().prototype()`). -/
structure Ctx where
  stack : List JsValue
  frame : Frame
  eff : Eff
  realmObjectProto : Nat
  deriving DecidableEq, Repr

/-- `JsValue::type_of`. -/
def JsValue.typeOf : JsValue → String
  | .undefined => "undefined"
  | .null => "object"
  | .boolean _ => "boolean"
  | .integer _ => "number"
  | .rational _ => "number"
  | .bigint _ => "bigint"
  | .string _ => "string"
  | .object _ => "object"

/-- `JsValue::as_object`. -/
def JsValue.asObject : JsValue → Option Nat
  | .object id => some id
  | _ => none

/-- The Number view of a value, when it is one of the two Number variants. -/
def JsValue.asNumber : JsValue → Option FloatVal
  | .integer n => some (.finite (n : ℚ))
  | .rational f => some f
  | _ => none

/-- `JsValue::strict_equals` (`===`): same-type comparison, with the two
Number representations compared numerically and `NaN` unequal to itself. -/
def strictEquals (a b : JsValue) : Bool :=
  match a, b with
  | .undefined, .undefined => true
  | .null, .null => true
  | .boolean x, .boolean y => x == y
  | .string x, .string y => x == y
  | .bigint x, .bigint y => x == y
  | .object x, .object y => x == y
  | _, _ =>
    match a.asNumber, b.asNumber with
    | some x, some y => FloatVal.straightEq x y
    | _, _ => false

/-- Modelled from the spec: string-to-number coercion, restricted to the
simple shapes the development exercises. -/
def strToNumber (s : String) : FloatVal :=
  if s = "" then .finite 0
  else
    match s.toNat? with
    | some n => .finite (n : ℚ)
    | none => .nan

/-- The numeric coercion of a primitive, when it has one. -/
def JsValue.numValue : JsValue → Option FloatVal
  | .boolean b => some (.finite (if b then 1 else 0))
  | .integer n => some (.finite (n : ℚ))
  | .rational f => some f
  | .string s => some (strToNumber s)
  | _ => none

/-- Modelled from the spec: abstract (coercing) equality on primitives. -/
def looseEqualsPrim (a b : JsValue) : Bool :=
  if strictEquals a b then true
  else
    match a, b with
    | .null, .undefined => true
    | .undefined, .null => true
    | .bigint n, _ =>
      match b.numValue with
      | some f => FloatVal.straightEq f (.finite (n : ℚ))
      | none => false
    | _, .bigint n =>
      match a.numValue with
      | some f => FloatVal.straightEq f (.finite (n : ℚ))
      | none => false
    | _, _ =>
      match a.numValue, b.numValue with
      | some x, some y => FloatVal.straightEq x y
      | _, _ => false

/-- Modelled from the spec: `JsValue::equals` (`==`), the abstract equality
comparison, which may invoke user-visible coercion on an object operand and
may throw. -/
def looseEquals (a b : JsValue) (e : Eff) : Except JsError Bool × Eff :=
  match a, b with
  | .object x, .object y => (.ok (x == y), e)
  | .object id, _ =>
    match (e.heap.getObj id).bind Obj.numericValue with
    | some num =>
      (.ok (looseEqualsPrim (numericToValue num) b),
        { e with log := e.log ++ [.numCoerce a] })
    | none => (.error (JsError.typeError ("cannot convert object to primitive")), e)
  | _, .object id =>
    match (e.heap.getObj id).bind Obj.numericValue with
    | some num =>
      (.ok (looseEqualsPrim a (numericToValue num)),
        { e with log := e.log ++ [.numCoerce b] })
    | none => (.error (JsError.typeError ("cannot convert object to primitive")), e)
  | _, _ => (.ok (looseEqualsPrim a b), e)

/-- Modelled from the spec: `JsValue::to_property_key`, the coercing
property-key conversion of a value; it records an observable coercion event
and, on an object, yields the key user code would produce (or throws). -/
def toPropertyKey (v : JsValue) (e : Eff) : Except JsError String × Eff :=
  let e2 : Eff := { e with log := e.log ++ [.keyCoerce v] }
  match v with
  | .undefined => (.ok ("undefined"), e2)
  | .null => (.ok ("null"), e2)
  | .boolean b => (.ok (if b then "true" else "false"), e2)
  | .integer n => (.ok (toString n), e2)
  | .rational f =>
    match f with
    | .finite q => (.ok (toString q), e2)
    | .nan => (.ok ("NaN"), e2)
    | .inf => (.ok ("Infinity"), e2)
    | .negInf => (.ok ("-Infinity"), e2)
  | .bigint n => (.ok (toString n), e2)
  | .string s => (.ok s, e2)
  | .object id =>
    match (e.heap.getObj id).bind Obj.keyValue with
    | some s => (.ok s, e2)
    | none => (.error (JsError.typeError ("cannot convert object to property key")), e2)

/-- Modelled from the spec: `JsValue::to_numeric`, the coercion preceding the
increment opcodes; it records an observable coercion event and may run user
code on an object operand (modelled by the object's stored `numericValue`). -/
def toNumeric (v : JsValue) (e : Eff) : Except JsError Numeric × Eff :=
  let e2 : Eff := { e with log := e.log ++ [.numCoerce v] }
  match v with
  | .undefined => (.ok (.number .nan), e2)
  | .null => (.ok (.number (.finite 0)), e2)
  | .boolean b => (.ok (.number (.finite (if b then 1 else 0))), e2)
  | .integer n => (.ok (.number (.finite (n : ℚ))), e2)
  | .rational f => (.ok (.number f), e2)
  | .bigint n => (.ok (.bigInt n), e2)
  | .string s => (.ok (.number (strToNumber s)), e2)
  | .object id =>
    match (e.heap.getObj id).bind Obj.numericValue with
    | some num => (.ok num, e2)
    | none => (.error (JsError.typeError ("cannot convert object to a numeric value")), e2)

/-- Prototype-chain property lookup with fuel (the chain in a well-formed
heap is shorter than the heap). -/
def hasPropertyFuel (h : Heap) : Nat → Nat → String → Bool
  | 0, _, _ => false
  | fuel + 1, id, k =>
    match h.getObj id with
    | none => false
    | some o =>
      if (o.getProp k).isSome then true
      else
        match o.proto with
        | some p => hasPropertyFuel h fuel p k
        | none => false

/-- Modelled from the spec: `JsObject::has_property`, the property-presence
check behind the `in` operator, walking the prototype chain. -/
def hasProperty (h : Heap) (id : Nat) (k : String) : Bool :=
  hasPropertyFuel h (h.length + 1) id k

/-- Modelled from the spec: an instruction operand is a small closed tagged
variant — a register index or a constant-pool slot — packed into the operand
integer (`InstructionOperand::from`); the exact bit layout is not in the
sampled source, so an even/odd packing is used. No theorem depends on the
packing, only on the decode being one fixed function shared by all widths. -/
inductive InstructionOperand where
  | register (n : Nat)
  | constant (n : Nat)
  deriving DecidableEq, Repr

def InstructionOperand.fromNat (n : Nat) : InstructionOperand :=
  if n % 2 = 0 then .register (n / 2) else .constant (n / 2)

/-- `InstructionOperand::to_value`: resolve the operand against the active
frame (registers relative to the frame base pointer `rp`) — a pure read. -/
def InstructionOperand.toValue : InstructionOperand → Ctx → JsValue
  | .register i, ctx => ctx.stack.getD (ctx.frame.rp + i) .undefined
  | .constant i, ctx => ctx.frame.code.constants.getD i .undefined

/-- The result type of one opcode execution: `JsResult<CompletionType>`.
An `Except.error` is a Throw completion. -/
abbrev OpResult := Except JsError CompletionType

/-- The shared `operation` body generated by `implement_bin_ops!` for the 18
macro-defined binary opcodes, generic over the language-level binary
operation `f` (`add`, `sub`, …, `instance_of`), which acts on the two
operand values and the effect state and may throw. The output slot at
`rp + output` is written only after `f` succeeds. -/
def binOpOperation (f : JsValue → JsValue → Eff → Except JsError JsValue × Eff)
    (output : Nat) (lhs rhs : InstructionOperand) (ctx : Ctx) : OpResult × Ctx :=
  let rp := ctx.frame.rp
  let lhsV := lhs.toValue ctx
  let rhsV := rhs.toValue ctx
  match f lhsV rhsV ctx.eff with
  | (.error err, e2) => (.error err, { ctx with eff := e2 })
  | (.ok v, e2) =>
    (.ok .normal, { ctx with eff := e2, stack := ctx.stack.set (rp + output) v })

/-- `NotEq::operation`: abstract equality, negated, stored at `rp + output`. -/
def notEqOperation (output : Nat) (lhs rhs : InstructionOperand) (ctx : Ctx) :
    OpResult × Ctx :=
  let rp := ctx.frame.rp
  let lhsV := lhs.toValue ctx
  let rhsV := rhs.toValue ctx
  match looseEquals lhsV rhsV ctx.eff with
  | (.error err, e2) => (.error err, { ctx with eff := e2 })
  | (.ok b, e2) =>
    (.ok .normal,
      { ctx with eff := e2, stack := ctx.stack.set (rp + output) (.boolean (!b)) })

/-- `StrictEq::operation`: strict equality stored at `rp + output`. -/
def strictEqOperation (output : Nat) (lhs rhs : InstructionOperand) (ctx : Ctx) :
    OpResult × Ctx :=
  let rp := ctx.frame.rp
  let lhsV := lhs.toValue ctx
  let rhsV := rhs.toValue ctx
  (.ok .normal,
    { ctx with stack := ctx.stack.set (rp + output) (.boolean (strictEquals lhsV rhsV)) })

/-- `StrictNotEq::operation`: negated strict equality stored at `rp + output`. -/
def strictNotEqOperation (output : Nat) (lhs rhs : InstructionOperand) (ctx : Ctx) :
    OpResult × Ctx :=
  let rp := ctx.frame.rp
  let lhsV := lhs.toValue ctx
  let rhsV := rhs.toValue ctx
  (.ok .normal,
    { ctx with stack := ctx.stack.set (rp + output) (.boolean (!strictEquals lhsV rhsV)) })

/-- `In::operation`: the right operand is resolved and checked to be an
object first; only then is the coercing property-key conversion performed on
the left operand, and the presence result stored at `rp + output`. -/
def inOperation (output : Nat) (lhs rhs : InstructionOperand) (ctx : Ctx) :
    OpResult × Ctx :=
  let rp := ctx.frame.rp
  let rhsV := rhs.toValue ctx
  match rhsV.asObject with
  | none =>
    (.error (JsError.typeError
      ("right-hand side of an in expression should be an object, got " ++ rhsV.typeOf)), ctx)
  | some oid =>
    let lhsV := lhs.toValue ctx
    match toPropertyKey lhsV ctx.eff with
    | (.error err, e2) => (.error err, { ctx with eff := e2 })
    | (.ok key, e2) =>
      (.ok .normal,
        { ctx with
          eff := e2,
          stack := ctx.stack.set (rp + output) (.boolean (hasProperty e2.heap oid key)) })

/-- `ToNumeric::operation`: numerically coerce the value at `rp + src` into
`rp + dst`; the coercion may run user code and may throw. -/
def toNumericOperation (src dst : Nat) (ctx : Ctx) : OpResult × Ctx :=
  let rp := ctx.frame.rp
  match toNumeric (ctx.stack.getD (rp + src) .undefined) ctx.eff with
  | (.error err, e2) => (.error err, { ctx with eff := e2 })
  | (.ok num, e2) =>
    (.ok .normal,
      { ctx with eff := e2, stack := ctx.stack.set (rp + dst) (numericToValue num) })

/-- `i32::MAX`, the safe upper bound of the plain-integer fast path. -/
def i32Max : Int := 2147483647

/-- `Inc::operation`: match on the numeric value at `rp + src`. A plain
integer below `i32::MAX` takes the fast path; a Rational adds `1f64`; a
BigInt adds an arbitrary-precision one. Any other value — including an
integer for which the `< i32::MAX` guard fails — falls through to the
`unreachable!` arm, modelled as `none` (a panic). -/
def incOperation (src dst : Nat) (ctx : Ctx) : Option (OpResult × Ctx) :=
  let rp := ctx.frame.rp
  match ctx.stack.getD (rp + src) .undefined with
  | .integer n =>
    if n < i32Max then
      some (.ok .normal, { ctx with stack := ctx.stack.set (rp + dst) (.integer (n + 1)) })
    else none
  | .rational f =>
    some (.ok .normal, { ctx with stack := ctx.stack.set (rp + dst) (.rational f.addOne) })
  | .bigint n =>
    some (.ok .normal, { ctx with stack := ctx.stack.set (rp + dst) (.bigint (n + 1)) })
  | _ => none

/-- The slow path of `IncPost::execute`: numerically coerce the popped value,
push the incremented value, then push the coerced original value. -/
def incPostSlow (v : JsValue) (popped : List JsValue) (ctx : Ctx) :
    Option (OpResult × Ctx) :=
  match toNumeric v ctx.eff with
  | (.error err, e2) => some (.error err, { ctx with eff := e2, stack := popped })
  | (.ok num, e2) =>
    let incd : JsValue :=
      match num with
      | .number f => .rational f.addOne
      | .bigInt n => .bigint (n + 1)
    some (.ok .normal, { ctx with eff := e2, stack := popped ++ [incd, numericToValue num] })

/-- `IncPost::execute`: pop the value; on the integer fast path push `n + 1`
then the original value, otherwise coerce and push incremented-then-original.
Popping an empty stack is a panic, modelled as `none`. -/
def incPostExecute (ctx : Ctx) : Option (OpResult × Ctx) :=
  match ctx.stack.getLast? with
  | none => none
  | some v =>
    let popped := ctx.stack.dropLast
    match v with
    | .integer n =>
      if n < i32Max then
        some (.ok .normal, { ctx with stack := popped ++ [.integer (n + 1), .integer n] })
      else incPostSlow v popped ctx
    | _ => incPostSlow v popped ctx

/-- The parent-prototype resolution at the top of
`SetClassPrototype::operation`: an object is itself the parent, `null` means
no parent, `undefined` means the realm's base object prototype, and anything
else is the `unreachable!` arm (`none`). -/
def protoParentOf (v : JsValue) (ctx : Ctx) : Option (Option Nat) :=
  match v with
  | .object p => some (some p)
  | .null => some none
  | .undefined => some (some ctx.realmObjectProto)
  | _ => none

/-- `SetClassPrototype::operation`: resolve the parent prototype from
`rp + prototypeIx`, allocate a fresh plain object with it as prototype,
install it on the class as the non-writable/non-enumerable/non-configurable
`prototype` property, record it as the class function home object, give the
fresh prototype a writable/non-enumerable/configurable `constructor` property
pointing back at the class, and write the fresh prototype to `rp + dst`.
The `unreachable!`/`expect` panics are modelled as `none`. -/
def setClassPrototypeOperation (dst prototypeIx cls : Nat) (ctx : Ctx) :
    Option (OpResult × Ctx) :=
  let rp := ctx.frame.rp
  let protoValue := ctx.stack.getD (rp + prototypeIx) .undefined
  match protoParentOf protoValue ctx with
  | none => none
  | some protoParent =>
    let alloc := ctx.eff.heap.allocObj (mkOrdinaryObj protoParent)
    let pid := alloc.1
    let clsV := ctx.stack.getD (rp + cls) .undefined
    match clsV.asObject with
    | none => none
    | some cid =>
      match alloc.2.getObj cid with
      | none => none
      | some co =>
        if co.isFunction then
          let h2 := alloc.2.setProp cid ("prototype")
            { value := .object pid, writable := false, enumerable := false,
              configurable := false }
          let h3 := h2.setHome cid pid
          let h4 := h3.setProp pid ("constructor")
            { value := clsV, writable := true, enumerable := false, configurable := true }
          some (.ok .normal,
            { ctx with
              eff := { ctx.eff with heap := h4 },
              stack := ctx.stack.set (rp + dst) (.object pid) })
        else none

/-- `RestParameterInit::execute`: when enough actual arguments were supplied,
slice the trailing `rest_count` arguments from just below the register
window, collect them into a fresh array, splice the array into the removed
span, decrement the frame base pointer and effective argument count by the
length of the removed span, and push the array; otherwise push a fresh empty
array and leave the stack untouched. -/
def restParameterInit (ctx : Ctx) : Ctx :=
  let argumentCount := ctx.frame.argument_count
  let registerCount := ctx.frame.code.register_count
  let paramCount := ctx.frame.code.param_count
  if argumentCount ≥ paramCount then
    let restCount := argumentCount - paramCount + 1
    let len := ctx.stack.length
    let start := len - restCount - registerCount
    let stop := len - registerCount
    let args := (ctx.stack.drop start).take (stop - start)
    let alloc := ctx.eff.heap.allocObj (mkArrayObj args)
    let aid := alloc.1
    let spliced := ctx.stack.take start ++ [JsValue.object aid] ++ ctx.stack.drop stop
    { stack := spliced ++ [JsValue.object aid],
      frame := { ctx.frame with
                 rp := ctx.frame.rp - (stop - start),
                 argument_count := argumentCount - (stop - start) },
      eff := { ctx.eff with heap := alloc.2 },
      realmObjectProto := ctx.realmObjectProto }
  else
    let alloc := ctx.eff.heap.allocObj (mkArrayObj [])
    { ctx with
      stack := ctx.stack ++ [JsValue.object alloc.1],
      eff := { ctx.eff with heap := alloc.2 } }

/-- Modelled from the spec: the fetch/decode state — the execution context
plus the active code unit instruction bytes and the program counter. -/
structure Machine where
  ctx : Ctx
  code : List Nat
  pc : Nat
  deriving DecidableEq, Repr

/-- `vm.read::<u8>()`: one byte at the program counter. -/
def Machine.readU8 (m : Machine) : Nat × Machine :=
  (m.code.getD m.pc 0, { m with pc := m.pc + 1 })

/-- `vm.read::<u16>()`: two little-endian bytes at the program counter. -/
def Machine.readU16 (m : Machine) : Nat × Machine :=
  (m.code.getD m.pc 0 + 256 * m.code.getD (m.pc + 1) 0, { m with pc := m.pc + 2 })

/-- `vm.read::<u32>()`: four little-endian bytes at the program counter. -/
def Machine.readU32 (m : Machine) : Nat × Machine :=
  (m.code.getD m.pc 0 + 256 * m.code.getD (m.pc + 1) 0
      + 65536 * m.code.getD (m.pc + 2) 0 + 16777216 * m.code.getD (m.pc + 3) 0,
    { m with pc := m.pc + 4 })

/-- The three operand widths. -/
inductive Width where
  | u8
  | u16
  | u32
  deriving DecidableEq, Repr

def Width.bound : Width → Nat
  | .u8 => 256
  | .u16 => 65536
  | .u32 => 4294967296

def Width.size : Width → Nat
  | .u8 => 1
  | .u16 => 2
  | .u32 => 4

def Width.read : Width → Machine → Nat × Machine
  | .u8 => Machine.readU8
  | .u16 => Machine.readU16
  | .u32 => Machine.readU32

/-- Little-endian encoding of an operand value at a width. -/
def Width.enc : Width → Nat → List Nat
  | .u8, n => [n % 256]
  | .u16, n => [n % 256, n / 256 % 256]
  | .u32, n => [n % 256, n / 256 % 256, n / 65536 % 256, n / 16777216 % 256]

/-- The shared body of the three `execute` entry points of an opcode with an
output slot and two instruction operands (the macro-defined binary opcodes,
the equality opcodes and `In`): read output, lhs, rhs with the width-reading
strategy, then delegate to the one shared operation function. -/
def execOLR (read : Machine → Nat × Machine)
    (op : Nat → InstructionOperand → InstructionOperand → Ctx → OpResult × Ctx)
    (m : Machine) : OpResult × Machine :=
  let r1 := read m
  let r2 := read r1.2
  let r3 := read r2.2
  let res := op r1.1 (InstructionOperand.fromNat r2.1) (InstructionOperand.fromNat r3.1) r3.2.ctx
  (res.1, { r3.2 with ctx := res.2 })

/-- The shared body of the three `execute` entry points of `ToNumeric` and
`Inc`: read dst then src with the width-reading strategy, then delegate to
the shared operation function (called with src first). -/
def execDS (read : Machine → Nat × Machine) (op : Nat → Nat → Ctx → OpResult × Ctx)
    (m : Machine) : OpResult × Machine :=
  let r1 := read m
  let r2 := read r1.2
  let res := op r2.1 r1.1 r2.2.ctx
  (res.1, { r2.2 with ctx := res.2 })

/-- As `execDS` but for an operation that can panic (`Inc`). -/
def execDSOpt (read : Machine → Nat × Machine)
    (op : Nat → Nat → Ctx → Option (OpResult × Ctx)) (m : Machine) :
    Option (OpResult × Machine) :=
  let r1 := read m
  let r2 := read r1.2
  match op r2.1 r1.1 r2.2.ctx with
  | none => none
  | some res => some (res.1, { r2.2 with ctx := res.2 })

/-- The shared body of the three `execute` entry points of
`SetClassPrototype`: read dst, prototype, class with the width-reading
strategy, then delegate to the shared operation function. -/
def execDPC (read : Machine → Nat × Machine)
    (op : Nat → Nat → Nat → Ctx → Option (OpResult × Ctx)) (m : Machine) :
    Option (OpResult × Machine) :=
  let r1 := read m
  let r2 := read r1.2
  let r3 := read r2.2
  match op r1.1 r2.1 r3.1 r3.2.ctx with
  | none => none
  | some res => some (res.1, { r3.2 with ctx := res.2 })

/-- The three width-specific `execute` variants of a macro-defined binary
opcode, generic over its language-level operation `f`. -/
def binOpExecuteW (f : JsValue → JsValue → Eff → Except JsError JsValue × Eff) :
    Width → Machine → OpResult × Machine
  | w => execOLR w.read (binOpOperation f)

/-- The three width-specific `execute` variants of `NotEq`. -/
def notEqExecuteW : Width → Machine → OpResult × Machine
  | w => execOLR w.read notEqOperation

/-- The three width-specific `execute` variants of `StrictEq`. -/
def strictEqExecuteW : Width → Machine → OpResult × Machine
  | w => execOLR w.read strictEqOperation

/-- The three width-specific `execute` variants of `StrictNotEq`. -/
def strictNotEqExecuteW : Width → Machine → OpResult × Machine
  | w => execOLR w.read strictNotEqOperation

/-- The three width-specific `execute` variants of `In`. -/
def inExecuteW : Width → Machine → OpResult × Machine
  | w => execOLR w.read inOperation

/-- The three width-specific `execute` variants of `ToNumeric`. -/
def toNumericExecuteW : Width → Machine → OpResult × Machine
  | w => execDS w.read toNumericOperation

/-- The three width-specific `execute` variants of `Inc`. -/
def incExecuteW : Width → Machine → Option (OpResult × Machine)
  | w => execDSOpt w.read incOperation

/-- The three width-specific `execute` variants of `SetClassPrototype`. -/
def setClassPrototypeExecuteW : Width → Machine → Option (OpResult × Machine)
  | w => execDPC w.read setClassPrototypeOperation

/-- Opcode names emitted by the binary-expression lowering. -/
inductive Opc where
  | add | sub | mul | divO | pow | modO
  | bitAnd | bitOr | bitXor | shiftLeft | shiftRight | unsignedShiftRight
  | eq | notEq | strictEq | strictNotEq
  | greaterThan | greaterThanOrEq | lessThan | lessThanOrEq | inO | instanceOf
  | logicalAnd | logicalOr | coalesce
  | pop
  deriving DecidableEq, Repr

/-- Emitted instructions, with the operand shapes the lowering uses:
`plain` for `emit_opcode`, `jump` for `emit_opcode_with_operand` (target
patched later), `popIntoReg` for `PopIntoRegister`, `cmp` for the
three-operand comparison emit, and `leaf` for the opaque code of a
non-binary subexpression. -/
inductive Instr where
  | plain (o : Opc)
  | leaf (tag : Nat)
  | jump (o : Opc) (target : Nat)
  | popIntoReg (r : Nat)
  | cmp (o : Opc) (output lhs rhs : Nat)
  deriving DecidableEq, Repr

/-- `boa_ast` arithmetic binary operators. -/
inductive ArithmeticOp where
  | addOp | subOp | divOp | mulOp | expOp | modOp
  deriving DecidableEq, Repr

/-- `boa_ast` bitwise binary operators. -/
inductive BitwiseOp where
  | andOp | orOp | xorOp | shlOp | shrOp | ushrOp
  deriving DecidableEq, Repr

/-- `boa_ast` relational binary operators. -/
inductive RelationalOp where
  | equal | notEqual | strictEqual | strictNotEqual
  | greaterThanOp | greaterThanOrEqualOp | lessThanOp | lessThanOrEqualOp
  | inOp | instanceOfOp
  deriving DecidableEq, Repr

/-- `boa_ast` logical binary operators. -/
inductive LogicalOp where
  | andOp | orOp | coalesceOp
  deriving DecidableEq, Repr

/-- `boa_ast::expression::operator::binary::BinaryOp`. -/
inductive BinaryOp where
  | arithmetic (op : ArithmeticOp)
  | bitwise (op : BitwiseOp)
  | relational (op : RelationalOp)
  | logical (op : LogicalOp)
  | comma
  deriving DecidableEq, Repr

/-- Expressions, with non-binary subexpressions abstracted into opaque
leaves whose compilation emits one tagged instruction. -/
inductive Expr where
  | leaf (tag : Nat)
  | binary (op : BinaryOp) (lhs rhs : Expr)
  deriving DecidableEq, Repr

def arithOpc : ArithmeticOp → Opc
  | .addOp => .add
  | .subOp => .sub
  | .divOp => .divO
  | .mulOp => .mul
  | .expOp => .pow
  | .modOp => .modO

def bitwiseOpc : BitwiseOp → Opc
  | .andOp => .bitAnd
  | .orOp => .bitOr
  | .xorOp => .bitXor
  | .shlOp => .shiftLeft
  | .shrOp => .shiftRight
  | .ushrOp => .unsignedShiftRight

def logicalOpc : LogicalOp → Opc
  | .andOp => .logicalAnd
  | .orOp => .logicalOr
  | .coalesceOp => .coalesce

/-- A register-allocator call, recorded in order of occurrence. -/
inductive REvent where
  | alloc (r : Nat)
  | dealloc (r : Nat)
  deriving DecidableEq, Repr

/-- Compiler state: the instruction buffer being appended to, the register
allocator (modelled from the spec as a stack-disciplined pool handing out
the next unused index), and the trace of allocator calls. -/
structure CState where
  buffer : List Instr
  nextReg : Nat
  trace : List REvent
  deriving DecidableEq, Repr

/-- Modelled from the spec: `RegisterAllocator::alloc` returns an unused
scratch index. -/
def CState.allocReg (st : CState) : Nat × CState :=
  (st.nextReg,
    { st with nextReg := st.nextReg + 1, trace := st.trace ++ [.alloc st.nextReg] })

/-- Modelled from the spec: `RegisterAllocator::dealloc` returns the slot to
the pool; the call order is recorded in the trace. -/
def CState.deallocReg (st : CState) (r : Nat) : CState :=
  { st with nextReg := st.nextReg - 1, trace := st.trace ++ [.dealloc r] }

/-- `emit_opcode` / `emit2`: append one instruction. -/
def CState.emit (st : CState) (i : Instr) : CState :=
  { st with buffer := st.buffer ++ [i] }

/-- `emit_opcode_with_operand`: append a jump-shaped instruction with a
placeholder target and return its label (buffer position). -/
def CState.emitWithOperand (st : CState) (o : Opc) : Nat × CState :=
  (st.buffer.length, { st with buffer := st.buffer ++ [Instr.jump o 0] })

/-- Rewrite a jump target. -/
def patchTarget : Instr → Nat → Instr
  | .jump o _, t => .jump o t
  | i, _ => i

/-- `patch_jump`: point the jump emitted at `label` to the current end of
the buffer. -/
def CState.patchJump (st : CState) (label : Nat) : CState :=
  { st with
    buffer := st.buffer.set label
      (patchTarget (st.buffer.getD label (.plain .pop)) st.buffer.length) }

/-- The per-operator tail of the relational arm of
`ByteCompiler::compile_binary` (the `match op` whose result is `needs_use`):
strict (in)equality pops both operands into two freshly allocated registers
(top of stack into the rhs register first) and emits a register-output
comparison, deallocating lhs then rhs; every other relational operator emits
its stack-shaped opcode. -/
def relationalLower (rop : RelationalOp) (output : Nat) (st : CState) :
    CState × Bool :=
  match rop with
  | .equal => (st.emit (.plain .eq), true)
  | .notEqual => (st.emit (.plain .notEq), true)
  | .strictEqual =>
    let a1 := st.allocReg
    let a2 := a1.2.allocReg
    let st1 := a2.2.emit (.popIntoReg a2.1)
    let st2 := st1.emit (.popIntoReg a1.1)
    let st3 := st2.emit (.cmp .strictEq output a1.1 a2.1)
    let st4 := st3.deallocReg a1.1
    let st5 := st4.deallocReg a2.1
    (st5, false)
  | .strictNotEqual =>
    let a1 := st.allocReg
    let a2 := a1.2.allocReg
    let st1 := a2.2.emit (.popIntoReg a2.1)
    let st2 := st1.emit (.popIntoReg a1.1)
    let st3 := st2.emit (.cmp .strictNotEq output a1.1 a2.1)
    let st4 := st3.deallocReg a1.1
    let st5 := st4.deallocReg a2.1
    (st5, false)
  | .greaterThanOp => (st.emit (.plain .greaterThan), true)
  | .greaterThanOrEqualOp => (st.emit (.plain .greaterThanOrEq), true)
  | .lessThanOp => (st.emit (.plain .lessThan), true)
  | .lessThanOrEqualOp => (st.emit (.plain .lessThanOrEq), true)
  | .inOp => (st.emit (.plain .inO), true)
  | .instanceOfOp => (st.emit (.plain .instanceOf), true)

/-- `ByteCompiler::compile_expr` restricted to the shapes reaching
`compile_binary`: a leaf emits its opaque instruction; a binary node is
lowered exactly as `ByteCompiler::compile_binary` does — left operand first,
then the per-category tail. Returns the `bool` that `compile_binary`
returns. -/
def compileExpr : Expr → Bool → Nat → CState → CState × Bool
  | .leaf t, useExpr, _, st =>
    let st1 := st.emit (.leaf t)
    (if useExpr then st1 else st1.emit (.plain .pop), true)
  | .binary op a b, useExpr, output, st =>
    let stL := (compileExpr a true 0 st).1
    match op with
    | .arithmetic aop =>
      let stR := (compileExpr b true 0 stL).1
      let st1 := stR.emit (.plain (arithOpc aop))
      (if useExpr then st1 else st1.emit (.plain .pop), true)
    | .bitwise bop =>
      let stR := (compileExpr b true 0 stL).1
      let st1 := stR.emit (.plain (bitwiseOpc bop))
      (if useExpr then st1 else st1.emit (.plain .pop), true)
    | .relational rop =>
      let stR := (compileExpr b true 0 stL).1
      let pr := relationalLower rop output stR
      (if !useExpr && pr.2 then pr.1.emit (.plain .pop) else pr.1, pr.2)
    | .logical lop =>
      let e1 := stL.emitWithOperand (logicalOpc lop)
      let stR := (compileExpr b true 0 e1.2).1
      let st1 := stR.patchJump e1.1
      (if useExpr then st1 else st1.emit (.plain .pop), true)
    | .comma =>
      let st1 := stL.emit (.plain .pop)
      let stR := (compileExpr b true 0 st1).1
      (if useExpr then stR else stR.emit (.plain .pop), true)

/-- The instructions appended to the buffer by one `compileExpr` call. -/
def emitted (e : Expr) (useExpr : Bool) (output : Nat) (st : CState) : List Instr :=
  ((compileExpr e useExpr output st).1).buffer.drop st.buffer.length

/-- A LIFO (well-nested) check of an allocator-call trace: every dealloc
must name the most recently allocated live register. -/
def lifoCheck : List REvent → List Nat → Bool
  | [], stk => stk.isEmpty
  | .alloc r :: rest, stk => lifoCheck rest (r :: stk)
  | .dealloc r :: rest, stk =>
    match stk with
    | top :: stk2 => top == r && lifoCheck rest stk2
    | [] => false

/-- Whether an allocator-call trace is well-nested (stack-matched). -/
def wellNestedLIFO (tr : List REvent) : Bool :=
  lifoCheck tr []

/-- Whether a value takes the integer fast path of the increment opcodes. -/
def isFastInt : JsValue → Bool
  | .integer n => decide (n < i32Max)
  | _ => false

/-- The value `IncPost` pushes as the incremented result on its slow path. -/
def incNumeric : Numeric → JsValue
  | .number f => .rational f.addOne
  | .bigInt n => .bigint (n + 1)

/-- A function object (a class constructor), for concrete instances. -/
def mkFuncObj : Obj :=
  { proto := none, props := [], isFunction := true, homeObject := none,
    elements := [], numericValue := none, keyValue := none }

/-- A minimal frame for concrete instances. -/
def frame0 : Frame :=
  { rp := 0, argument_count := 0,
    code := { register_count := 0, param_count := 0, constants := [] } }

/-- A minimal context around a given stack, for concrete instances. -/
def mkCtx (s : List JsValue) : Ctx :=
  { stack := s, frame := frame0, eff := { heap := [], log := [] },
    realmObjectProto := 0 }

/-- A code block for a function declared `f(a, ...rest)` with one register. -/
def cbRest : CodeBlock := { register_count := 1, param_count := 2, constants := [] }

/-- The frame of `f(a, ...rest)` invoked with arguments `[1, 2, 3, 4]`:
arguments at stack indices 0–3, the register window starting at `rp = 4`. -/
def ctxRest4 : Ctx :=
  { stack := [.integer 1, .integer 2, .integer 3, .integer 4, .undefined],
    frame := { rp := 4, argument_count := 4, code := cbRest },
    eff := { heap := [], log := [] },
    realmObjectProto := 0 }

/-- The frame of `f(a, ...rest)` invoked with the single argument `[1]`. -/
def ctxRest1 : Ctx :=
  { stack := [.integer 1, .undefined],
    frame := { rp := 1, argument_count := 1, code := cbRest },
    eff := { heap := [], log := [] },
    realmObjectProto := 0 }

/-- The frame of `f(a, ...rest)` invoked with `[1, 2]`, whose single register
holds a sentinel string so that register addressing can be observed. -/
def ctxRest2 : Ctx :=
  { stack := [.integer 1, .integer 2, .string ("r0")],
    frame := { rp := 2, argument_count := 2, code := cbRest },
    eff := { heap := [], log := [] },
    realmObjectProto := 0 }

/-- Context for evaluating `"x" in {}`: register 0 holds the string key,
register 1 the empty object, register 2 receives the output. -/
def ctxInEmpty : Ctx :=
  { stack := [.string ("x"), .object 0, .undefined],
    frame := { rp := 0, argument_count := 0,
               code := { register_count := 3, param_count := 0, constants := [] } },
    eff := { heap := [mkOrdinaryObj none], log := [] },
    realmObjectProto := 0 }

/-- The fresh compiler state. -/
def cstate0 : CState := { buffer := [], nextReg := 0, trace := [] }

/-- The expression `leaf0 === leaf1`. -/
def strictEqExpr : Expr := .binary (.relational .strictEqual) (.leaf 0) (.leaf 1)

/-- A language-level binary operation that always throws, for exercising the
error path of the generic binary-opcode body. -/
def throwerOp : JsValue → JsValue → Eff → Except JsError JsValue × Eff :=
  fun _ _ e => (.error (.typeError ("boom")), e)

/-- Context for wiring `class A {}`: the class function object in register 0,
the resolved parent-prototype value (`undefined`, meaning the base object
prototype) in register 1, register 2 receiving the fresh prototype. -/
def ctxClass : Ctx :=
  { stack := [.object 1, .undefined, .undefined],
    frame := { rp := 0, argument_count := 0,
               code := { register_count := 3, param_count := 0, constants := [] } },
    eff := { heap := [mkOrdinaryObj none, mkFuncObj], log := [] },
    realmObjectProto := 0 }

/-! Helper list lemmas shared by the claim proofs. -/

theorem list_getD_append_left {α : Type} (l1 l2 : List α) (n : Nat) (d : α)
    (h : n < l1.length) : (l1 ++ l2).getD n d = l1.getD n d := by
  simp [List.getD, List.getElem?_append_left h]

theorem list_getD_append_right {α : Type} (l1 l2 : List α) (n : Nat) (d : α)
    (h : l1.length ≤ n) : (l1 ++ l2).getD n d = l2.getD (n - l1.length) d := by
  simp [List.getD, List.getElem?_append_right h]

theorem list_getD_set_ne {α : Type} (l : List α) (i j : Nat) (a : α) (d : α)
    (h : i ≠ j) : (l.set i a).getD j d = l.getD j d := by
  simp [List.getD, List.getElem?_set_ne h]

theorem list_set_append_right {α : Type} (l1 l2 : List α) (n : Nat) (a : α)
    (h : l1.length ≤ n) : (l1 ++ l2).set n a = l1 ++ l2.set (n - l1.length) a := by
  induction l1 generalizing n with
  | nil => simp
  | cons x xs ih =>
    cases n with
    | zero => simp at h
    | succ m =>
      simp only [List.cons_append, List.set_cons_succ, List.length_cons] at *
      rw [ih m (Nat.le_of_succ_le_succ h)]
      have he : m + 1 - (xs.length + 1) = m - xs.length := by omega
      rw [he]

theorem list_take_append_add {α : Type} (l1 l2 : List α) (n : Nat) :
    (l1 ++ l2).take (l1.length + n) = l1 ++ l2.take n := by
  rw [List.take_append_eq_append_take]
  congr 1
  · rw [List.take_of_length_le (by omega)]
  · congr 1
    omega

theorem list_drop_append_add {α : Type} (l1 l2 : List α) (n : Nat) :
    (l1 ++ l2).drop (l1.length + n) = l2.drop n := by
  rw [List.drop_append_eq_append_drop]
  rw [List.drop_of_length_le (by omega)]
  simp only [List.nil_append]
  congr 1
  omega

/-!
## Claim C4 — `Inc` numeric paths

The claim asserts that under the numeric precondition every non-fast-path
Number promotes to floating-point addition, *including an integer at or above
the safe bound*. The code has no arm for `Integer(i32::MAX)`: the fast-path
guard `number < i32::MAX` fails, the `Rational` and `BigInt` arms do not
match, and the `_ => unreachable!` arm panics. The claim is right about the
fast path (an integer below the bound becomes that integer plus one, with no
heap effect), the float path and the exact arbitrary-precision path, and the
code diverges from it exactly at `Integer(i32::MAX)`.
-/

/-- Claim C4: the three handled numeric paths of `Inc::operation` behave as
the claim states — integer `2147483646` (below the bound) increments on the
integer fast path, a Rational takes float addition, a 100-bit
arbitrary-precision integer increments exactly — but at the failing input
`Integer(2147483647)` (= `i32::MAX`, a numeric value the preceding
`ToNumeric` can produce) the operation hits the `unreachable!` arm (`none`)
instead of promoting to floating-point addition as the claim asserts. -/
theorem c4_inc_numeric_paths :
    incOperation 0 0 (mkCtx [.integer 2147483646])
        = some (.ok .normal, mkCtx [.integer 2147483647])
      ∧ (incOperation 0 0 (mkCtx [.integer 2147483646])).map
          (fun r => r.2.eff.heap) = some []
      ∧ incOperation 0 0 (mkCtx [.rational (.finite 5)])
        = some (.ok .normal, mkCtx [.rational (.finite 6)])
      ∧ incOperation 0 0 (mkCtx [.bigint 1267650600228229401496703205376])
        = some (.ok .normal, mkCtx [.bigint 1267650600228229401496703205377])
      ∧ incOperation 0 0 (mkCtx [.integer 2147483647]) = none := by
  refine ⟨rfl, rfl, ?_, rfl, rfl⟩
  simp [incOperation, mkCtx, frame0, FloatVal.addOne]
  norm_num

/-!
## Claim C3 — register addressing across the rest-parameter splice

The claim asserts that after the splice every register slot of the frame
still resolves, through the adjusted base pointer `rp`, to its pre-splice
value. The splice removes `rest_count` slots but inserts one (the rest
array), so the register window physically moves down by `rest_count - 1`,
while the code decrements `rp` by the full removed-span length
`rest_count`. Every register therefore resolves one slot low afterwards. The
minimal instance is `f(a, ...rest)` invoked with `[1, 2]` (`rest_count = 1`):
the splice replaces the single rest argument in place, no slot moves, yet
`rp` is decremented, so register 0 resolves to the spliced-in array instead
of its original sentinel value.
-/

/-- Claim C3: in the frame of `f(a, ...rest)` called with `[1, 2]`, register
0 holds the sentinel string before `RestParameterInit`, but afterwards the
same register slot, resolved through the adjusted `rp`, yields the freshly
allocated rest array — the register slots do not survive the splice. -/
theorem c3_register_addressing_breaks :
    ctxRest2.stack.getD (ctxRest2.frame.rp + 0) .undefined = JsValue.string ("r0")
      ∧ (restParameterInit ctxRest2).stack.getD
          ((restParameterInit ctxRest2).frame.rp + 0) .undefined = JsValue.object 0
      ∧ JsValue.object 0 ≠ JsValue.string ("r0") := by
  refine ⟨rfl, rfl, by decide⟩

/-!
## Claim C7 — scratch-register discipline of strict (in)equality lowering

The lowering allocates the lhs register and then the rhs register, and pops
the top of stack into the rhs register first — as the claim states. But it
deallocates `lhs` first and then `rhs` (`binary.rs` lines 70–71 and 83–84),
i.e. in allocation order, not in the claimed reverse order; the allocator
call sequence `alloc lhs, alloc rhs, dealloc lhs, dealloc rhs` is therefore
not well-nested.
-/

/-- Claim C7 (counterexample): compiling `leaf0 === leaf1` from the fresh
compiler state records the allocator calls
`alloc 0, alloc 1, dealloc 0, dealloc 1` — the deallocations run in
allocation order (lhs first), and the resulting call sequence fails the
well-nested LIFO check, contrary to the claim that the registers are
deallocated rhs first then lhs, forming a well-nested sequence. -/
theorem c7_strict_eq_dealloc_not_lifo :
    ((compileExpr strictEqExpr true 5 cstate0).1).trace
        = [.alloc 0, .alloc 1, .dealloc 0, .dealloc 1]
      ∧ ((compileExpr strictEqExpr true 5 cstate0).1).trace
          ≠ [.alloc 0, .alloc 1, .dealloc 1, .dealloc 0]
      ∧ wellNestedLIFO ((compileExpr strictEqExpr true 5 cstate0).1).trace = false := by
  refine ⟨rfl, by decide, rfl⟩

/-- Claim C7 (amended): when the compiler lowers a strict equality or strict
inequality expression, two scratch registers are allocated (lhs then rhs),
the top of stack is popped into the rhs register first and the next into the
lhs register, and after emitting the comparison opcode the two registers are
deallocated lhs first, then rhs — the same order as their allocation (so the
allocate/deallocate calls at this site are not LIFO-nested). -/
theorem c7_scratch_register_discipline :
    ∀ (a b : Expr) (output : Nat) (useExpr : Bool) (st : CState),
      ((compileExpr (.binary (.relational .strictEqual) a b) useExpr output st).1.trace
          = ((compileExpr b true 0 ((compileExpr a true 0 st).1)).1).trace
            ++ [.alloc ((compileExpr b true 0 ((compileExpr a true 0 st).1)).1).nextReg,
                .alloc (((compileExpr b true 0 ((compileExpr a true 0 st).1)).1).nextReg + 1),
                .dealloc ((compileExpr b true 0 ((compileExpr a true 0 st).1)).1).nextReg,
                .dealloc (((compileExpr b true 0 ((compileExpr a true 0 st).1)).1).nextReg + 1)]
        ∧ (compileExpr (.binary (.relational .strictEqual) a b) useExpr output st).1.buffer
          = ((compileExpr b true 0 ((compileExpr a true 0 st).1)).1).buffer
            ++ [.popIntoReg (((compileExpr b true 0 ((compileExpr a true 0 st).1)).1).nextReg + 1),
                .popIntoReg ((compileExpr b true 0 ((compileExpr a true 0 st).1)).1).nextReg,
                .cmp .strictEq output
                  ((compileExpr b true 0 ((compileExpr a true 0 st).1)).1).nextReg
                  (((compileExpr b true 0 ((compileExpr a true 0 st).1)).1).nextReg + 1)])
      ∧ ((compileExpr (.binary (.relational .strictNotEqual) a b) useExpr output st).1.trace
          = ((compileExpr b true 0 ((compileExpr a true 0 st).1)).1).trace
            ++ [.alloc ((compileExpr b true 0 ((compileExpr a true 0 st).1)).1).nextReg,
                .alloc (((compileExpr b true 0 ((compileExpr a true 0 st).1)).1).nextReg + 1),
                .dealloc ((compileExpr b true 0 ((compileExpr a true 0 st).1)).1).nextReg,
                .dealloc (((compileExpr b true 0 ((compileExpr a true 0 st).1)).1).nextReg + 1)]
        ∧ (compileExpr (.binary (.relational .strictNotEqual) a b) useExpr output st).1.buffer
          = ((compileExpr b true 0 ((compileExpr a true 0 st).1)).1).buffer
            ++ [.popIntoReg (((compileExpr b true 0 ((compileExpr a true 0 st).1)).1).nextReg + 1),
                .popIntoReg ((compileExpr b true 0 ((compileExpr a true 0 st).1)).1).nextReg,
                .cmp .strictNotEq output
                  ((compileExpr b true 0 ((compileExpr a true 0 st).1)).1).nextReg
                  (((compileExpr b true 0 ((compileExpr a true 0 st).1)).1).nextReg + 1)]) := by
  intro a b output useExpr st
  constructor
  all_goals
    simp only [compileExpr, relationalLower, CState.allocReg, CState.deallocReg,
      CState.emit, Bool.and_false, if_false, List.append_assoc]
    constructor <;> simp

/-!
## Claim C1 — the `In` opcode checks its right operand before coercing

`In::operation` resolves the right operand first; if it is not an object the
operation returns a Throw completion carrying a type error with the context
completely unchanged (in particular the coercion-event log — the coercing
property-key conversion of the left operand is never invoked). If it is an
object, the left operand undergoes the property-key conversion (one coercion
event is appended) and the boolean presence result is stored at
`rp + output`; `"x" in {}` stores `false` without throwing.
-/

/-- The property-key conversion always records exactly one observable
coercion event. -/
theorem toPropertyKey_log (v : JsValue) (e : Eff) :
    (toPropertyKey v e).2.log = e.log ++ [Event.keyCoerce v] := by
  cases v with
  | rational f => cases f <;> rfl
  | object id =>
    cases hx : (e.heap.getObj id).bind Obj.keyValue <;> simp [toPropertyKey, hx]
  | _ => rfl

/-- Claim C1: for every pair of operand values, a non-object right operand
makes `In::operation` return a Throw completion carrying a type error with
the context unchanged — so the coercing property-key conversion of the left
operand is never invoked; an object right operand makes it perform the
property-key conversion on the left operand (exactly one coercion event) and
store the boolean presence result at `rp + output`; and evaluating
`"x" in {}` yields `false` without throwing. -/
theorem c1_in_right_operand_gate :
    (∀ (output : Nat) (lhs rhs : InstructionOperand) (ctx : Ctx),
        (rhs.toValue ctx).asObject = none →
          inOperation output lhs rhs ctx
            = (.error (.typeError
                ("right-hand side of an in expression should be an object, got "
                  ++ (rhs.toValue ctx).typeOf)), ctx))
      ∧ (∀ (output : Nat) (lhs rhs : InstructionOperand) (ctx : Ctx) (oid : Nat),
          (rhs.toValue ctx).asObject = some oid →
            ∀ key e2, toPropertyKey (lhs.toValue ctx) ctx.eff = (.ok key, e2) →
              inOperation output lhs rhs ctx
                  = (.ok .normal,
                     { ctx with
                       eff := e2,
                       stack := ctx.stack.set (ctx.frame.rp + output)
                         (.boolean (hasProperty e2.heap oid key)) })
                ∧ e2.log = ctx.eff.log ++ [Event.keyCoerce (lhs.toValue ctx)])
      ∧ inOperation 2 (.register 0) (.register 1) ctxInEmpty
          = (.ok .normal,
             { ctxInEmpty with
               eff := { heap := [mkOrdinaryObj none],
                        log := [Event.keyCoerce (.string ("x"))] },
               stack := [.string ("x"), .object 0, .boolean false] }) := by
  refine ⟨?_, ?_, rfl⟩
  · intro output lhs rhs ctx h
    simp [inOperation, h]
  · intro output lhs rhs ctx oid h key e2 hk
    refine ⟨?_, ?_⟩
    · simp [inOperation, h, hk]
    · have := toPropertyKey_log (lhs.toValue ctx) ctx.eff
      rw [hk] at this
      exact this

/-- Witness for C1: `"x" in 5` throws a type error naming the operand type,
with the context untouched. -/
theorem c1_witness :
    inOperation 2 (.register 0) (.register 1) (mkCtx [.string ("x"), .integer 5, .undefined])
      = (.error (.typeError
          ("right-hand side of an in expression should be an object, got "
            ++ ((InstructionOperand.register 1).toValue
                  (mkCtx [.string ("x"), .integer 5, .undefined])).typeOf)),
         mkCtx [.string ("x"), .integer 5, .undefined]) :=
  c1_in_right_operand_gate.1 2 (.register 0) (.register 1)
    (mkCtx [.string ("x"), .integer 5, .undefined]) rfl

/-!
## Claim C5 — `IncPost` pushes incremented-then-original

On both paths `IncPost` pushes the incremented value first and then the
(numerically coerced) original, so the original ends on top of the stack as
the expression result with the incremented value directly beneath it.
-/

/-- Claim C5: for every popped input value, `IncPost` pushes the incremented
value first and then the original (pre-increment, numerically coerced)
value, so the original is on top and the incremented value directly beneath;
in particular an integer `n` below the fast-path threshold leaves `n` on top
of `n + 1`. -/
theorem c5_inc_post_stack_order :
    ∀ (ctx : Ctx) (rest : List JsValue) (v : JsValue),
      ctx.stack = rest ++ [v] →
        ((∀ n : Int, v = .integer n → n < i32Max →
            incPostExecute ctx
              = some (.ok .normal,
                  { ctx with stack := rest ++ [.integer (n + 1), .integer n] }))
          ∧ (isFastInt v = false →
              ∀ num e2, toNumeric v ctx.eff = (.ok num, e2) →
                incPostExecute ctx
                  = some (.ok .normal,
                      { ctx with
                        eff := e2,
                        stack := rest ++ [incNumeric num, numericToValue num] }))) := by
  intro ctx rest v h
  constructor
  · intro n hv hn
    subst hv
    simp [incPostExecute, h, List.getLast?_concat, List.dropLast_concat, hn]
  · intro hfast num e2 htn
    have hslow : incPostSlow v rest ctx
        = some (.ok .normal,
            { ctx with eff := e2, stack := rest ++ [incNumeric num, numericToValue num] }) := by
      simp [incPostSlow, htn, incNumeric]
    cases v with
    | integer n =>
      have hn : ¬n < i32Max := by
        simpa [isFastInt] using hfast
      simp [incPostExecute, h, List.getLast?_concat, List.dropLast_concat, hn, hslow]
    | _ =>
      simp [incPostExecute, h, List.getLast?_concat, List.dropLast_concat, hslow]

/-- Witness for C5: postfix increment of the integer `5` leaves `5` on top
of the stack and `6` directly beneath it. -/
theorem c5_witness :
    incPostExecute (mkCtx [.integer 5])
      = some (.ok .normal, { mkCtx [.integer 5] with stack := [.integer 6, .integer 5] }) :=
  (c5_inc_post_stack_order (mkCtx [.integer 5]) [] (.integer 5) rfl).1 5 rfl (by decide)

/-!
## Claim C10 — binary opcodes write only the output slot, and only on success

The shared operation body of the macro-defined binary opcodes, the equality
opcodes and `In` writes `stack[rp + output]` only after the fallible
language-level operation has succeeded; on a Throw completion the stack is
untouched, and on a Normal completion no other slot changes.
-/

/-- Claim C10: for the generic macro-defined binary operation body (any
language-level operation `f`), and for `NotEq`, `StrictEq`, `StrictNotEq`
and `In`: when the operation returns an error the value stack is unchanged,
and on any outcome every slot other than `rp + output` is unchanged. -/
theorem c10_output_slot_discipline :
    ∀ (f : JsValue → JsValue → Eff → Except JsError JsValue × Eff)
      (output : Nat) (lhs rhs : InstructionOperand) (ctx : Ctx),
      ((∀ err, (binOpOperation f output lhs rhs ctx).1 = .error err →
            (binOpOperation f output lhs rhs ctx).2.stack = ctx.stack)
        ∧ (∀ j, j ≠ ctx.frame.rp + output →
            (binOpOperation f output lhs rhs ctx).2.stack.getD j .undefined
              = ctx.stack.getD j .undefined))
      ∧ ((∀ err, (notEqOperation output lhs rhs ctx).1 = .error err →
            (notEqOperation output lhs rhs ctx).2.stack = ctx.stack)
        ∧ (∀ j, j ≠ ctx.frame.rp + output →
            (notEqOperation output lhs rhs ctx).2.stack.getD j .undefined
              = ctx.stack.getD j .undefined))
      ∧ ((∀ err, (strictEqOperation output lhs rhs ctx).1 = .error err →
            (strictEqOperation output lhs rhs ctx).2.stack = ctx.stack)
        ∧ (∀ j, j ≠ ctx.frame.rp + output →
            (strictEqOperation output lhs rhs ctx).2.stack.getD j .undefined
              = ctx.stack.getD j .undefined))
      ∧ ((∀ err, (strictNotEqOperation output lhs rhs ctx).1 = .error err →
            (strictNotEqOperation output lhs rhs ctx).2.stack = ctx.stack)
        ∧ (∀ j, j ≠ ctx.frame.rp + output →
            (strictNotEqOperation output lhs rhs ctx).2.stack.getD j .undefined
              = ctx.stack.getD j .undefined))
      ∧ ((∀ err, (inOperation output lhs rhs ctx).1 = .error err →
            (inOperation output lhs rhs ctx).2.stack = ctx.stack)
        ∧ (∀ j, j ≠ ctx.frame.rp + output →
            (inOperation output lhs rhs ctx).2.stack.getD j .undefined
              = ctx.stack.getD j .undefined)) := by
  intro f output lhs rhs ctx
  refine ⟨⟨?_, ?_⟩, ⟨?_, ?_⟩, ⟨?_, ?_⟩, ⟨?_, ?_⟩, ⟨?_, ?_⟩⟩
  · intro err herr
    rcases hf : f (lhs.toValue ctx) (rhs.toValue ctx) ctx.eff with ⟨res, e2⟩
    cases res <;> simp [binOpOperation, hf] at herr ⊢
  · intro j hj
    rcases hf : f (lhs.toValue ctx) (rhs.toValue ctx) ctx.eff with ⟨res, e2⟩
    cases res <;> simp [binOpOperation, hf, List.getElem?_set_ne (Ne.symm hj)]
  · intro err herr
    rcases hf : looseEquals (lhs.toValue ctx) (rhs.toValue ctx) ctx.eff with ⟨res, e2⟩
    cases res <;> simp [notEqOperation, hf] at herr ⊢
  · intro j hj
    rcases hf : looseEquals (lhs.toValue ctx) (rhs.toValue ctx) ctx.eff with ⟨res, e2⟩
    cases res <;> simp [notEqOperation, hf, List.getElem?_set_ne (Ne.symm hj)]
  · intro err herr
    simp [strictEqOperation] at herr
  · intro j hj
    simp [strictEqOperation, List.getElem?_set_ne (Ne.symm hj)]
  · intro err herr
    simp [strictNotEqOperation] at herr
  · intro j hj
    simp [strictNotEqOperation, List.getElem?_set_ne (Ne.symm hj)]
  · intro err herr
    cases ho : (rhs.toValue ctx).asObject with
    | none => simp [inOperation, ho]
    | some oid =>
      rcases hk : toPropertyKey (lhs.toValue ctx) ctx.eff with ⟨res, e2⟩
      cases res <;> simp [inOperation, ho, hk] at herr ⊢
  · intro j hj
    cases ho : (rhs.toValue ctx).asObject with
    | none => simp [inOperation, ho]
    | some oid =>
      rcases hk : toPropertyKey (lhs.toValue ctx) ctx.eff with ⟨res, e2⟩
      cases res <;>
        simp [inOperation, ho, hk, List.getElem?_set_ne (Ne.symm hj)]

/-- Witness for C10: a throwing language-level operation leaves the stack of
a concrete context unchanged, and a successful strict-equality leaves the
non-output slot 0 unchanged. -/
theorem c10_witness :
    (binOpOperation throwerOp 2 (.register 0) (.register 1) ctxInEmpty).2.stack
        = ctxInEmpty.stack
      ∧ (strictEqOperation 2 (.register 0) (.register 1) ctxInEmpty).2.stack.getD 0 .undefined
          = ctxInEmpty.stack.getD 0 .undefined :=
  ⟨(c10_output_slot_discipline throwerOp 2 (.register 0) (.register 1) ctxInEmpty).1.1
      (.typeError ("boom")) rfl,
   (c10_output_slot_discipline throwerOp 2 (.register 0) (.register 1)
      ctxInEmpty).2.2.1.2 0 (by decide)⟩

/-!
## Claim C2 — rest-parameter materialization

Under the frame-layout invariant (arguments directly below the register
window, which occupies the top `register_count` slots), when the actual
argument count reaches the declared parameter count the opcode collects
exactly the trailing `argument_count - (param_count - 1)` arguments into a
fresh array, splices the array into their place, and pushes it; with fewer
arguments it pushes a fresh empty array and removes nothing.
-/

/-- Claim C2: `RestParameterInit` with enough arguments collects exactly the
trailing arguments beyond the declared non-rest parameter count into a newly
allocated array, splices it in and pushes it; with fewer actual arguments
than declared parameters it pushes a newly allocated empty array and removes
no stack slots. Concretely, `f(a, ...rest)` invoked with `[1,2,3,4]` yields
a rest array `[2,3,4]`, and invoked with `[1]` an empty rest array. -/
theorem c2_rest_parameter_materialization :
    (∀ (ctx : Ctx) (pre args regs : List JsValue),
        ctx.stack = pre ++ args ++ regs →
        args.length = ctx.frame.argument_count →
        regs.length = ctx.frame.code.register_count →
        1 ≤ ctx.frame.code.param_count →
          ((ctx.frame.code.param_count ≤ ctx.frame.argument_count →
              restParameterInit ctx
                  = { stack := pre ++ args.take (ctx.frame.code.param_count - 1)
                        ++ [JsValue.object ctx.eff.heap.length] ++ regs
                        ++ [JsValue.object ctx.eff.heap.length],
                      frame := { ctx.frame with
                                 rp := ctx.frame.rp - (ctx.frame.argument_count
                                   - ctx.frame.code.param_count + 1),
                                 argument_count := ctx.frame.argument_count
                                   - (ctx.frame.argument_count
                                     - ctx.frame.code.param_count + 1) },
                      eff := { ctx.eff with
                               heap := ctx.eff.heap ++ [mkArrayObj
                                 (args.drop (ctx.frame.code.param_count - 1))] },
                      realmObjectProto := ctx.realmObjectProto }
                ∧ (args.drop (ctx.frame.code.param_count - 1)).length
                    = ctx.frame.argument_count - (ctx.frame.code.param_count - 1)
                ∧ ctx.eff.heap.getObj ctx.eff.heap.length = none)
            ∧ (ctx.frame.argument_count < ctx.frame.code.param_count →
                restParameterInit ctx
                    = { ctx with
                        stack := ctx.stack ++ [JsValue.object ctx.eff.heap.length],
                        eff := { ctx.eff with heap := ctx.eff.heap ++ [mkArrayObj []] } }
                  ∧ ctx.eff.heap.getObj ctx.eff.heap.length = none)))
      ∧ (restParameterInit ctxRest4).eff.heap.getObj 0
          = some (mkArrayObj [.integer 2, .integer 3, .integer 4])
      ∧ (restParameterInit ctxRest4).stack
          = [.integer 1, .object 0, .undefined, .object 0]
      ∧ (restParameterInit ctxRest1).eff.heap.getObj 0 = some (mkArrayObj [])
      ∧ (restParameterInit ctxRest1).stack = [.integer 1, .undefined, .object 0] := by
  refine ⟨?_, rfl, rfl, rfl, rfl⟩
  intro ctx pre args regs h hac hrc hpc
  have hlen : ctx.stack.length = pre.length + args.length + regs.length := by
    rw [h]; simp; omega
  constructor
  · intro hge
    have hfresh : ctx.eff.heap.getObj ctx.eff.heap.length = none := by
      simp [Heap.getObj]
    have hstart : ctx.stack.length
        - (ctx.frame.argument_count - ctx.frame.code.param_count + 1)
        - ctx.frame.code.register_count
        = pre.length + (ctx.frame.code.param_count - 1) := by omega
    have hstop : ctx.stack.length - ctx.frame.code.register_count
        = pre.length + args.length := by omega
    have hspan : pre.length + args.length
        - (pre.length + (ctx.frame.code.param_count - 1))
        = ctx.frame.argument_count - ctx.frame.code.param_count + 1 := by omega
    have htake : ctx.stack.take (pre.length + (ctx.frame.code.param_count - 1))
        = pre ++ args.take (ctx.frame.code.param_count - 1) := by
      rw [h, List.append_assoc, list_take_append_add, List.take_append_eq_append_take]
      have hz : ctx.frame.code.param_count - 1 - args.length = 0 := by omega
      rw [hz, List.take_zero, List.append_nil]
    have hdropstop : ctx.stack.drop (pre.length + args.length) = regs := by
      rw [h, List.append_assoc, list_drop_append_add, List.drop_left]
    have hdropstart : ctx.stack.drop (pre.length + (ctx.frame.code.param_count - 1))
        = args.drop (ctx.frame.code.param_count - 1) ++ regs := by
      rw [h, List.append_assoc, list_drop_append_add, List.drop_append_eq_append_drop]
      have hz : ctx.frame.code.param_count - 1 - args.length = 0 := by omega
      rw [hz, List.drop_zero]
    have hslice : (ctx.stack.drop (pre.length + (ctx.frame.code.param_count - 1))).take
          (ctx.frame.argument_count - ctx.frame.code.param_count + 1)
        = args.drop (ctx.frame.code.param_count - 1) := by
      rw [hdropstart, List.take_append_eq_append_take,
        List.take_of_length_le (l := args.drop (ctx.frame.code.param_count - 1))
          (by simp; omega)]
      have hz : ctx.frame.argument_count - ctx.frame.code.param_count + 1
          - (args.drop (ctx.frame.code.param_count - 1)).length = 0 := by simp; omega
      rw [hz, List.take_zero, List.append_nil]
    refine ⟨?_, by simp; omega, hfresh⟩
    simp only [restParameterInit, Heap.allocObj, if_pos hge]
    rw [hstart, hstop, hspan, htake, hdropstop, hslice]
  · intro hlt
    have hfresh : ctx.eff.heap.getObj ctx.eff.heap.length = none := by
      simp [Heap.getObj]
    refine ⟨?_, hfresh⟩
    simp only [restParameterInit, Heap.allocObj, if_neg (by omega : ¬ctx.frame.argument_count ≥ ctx.frame.code.param_count)]

/-! Heap lemmas for the class-prototype wiring proof. -/

theorem heap_getObj_lt (h : Heap) (n : Nat) (o : Obj) (hn : h.getObj n = some o) :
    n < h.length := by
  rw [Heap.getObj, List.get?_eq_getElem?] at hn
  exact (List.getElem?_eq_some.mp hn).1

theorem heap_getObj_append_lt (h : Heap) (h2 : List Obj) (n : Nat) (hn : n < h.length) :
    Heap.getObj (h ++ h2) n = h.getObj n := by
  simp [Heap.getObj, List.get?_eq_getElem?, List.getElem?_append_left hn]

theorem heap_getObj_append_self (h : Heap) (o : Obj) :
    Heap.getObj (h ++ [o]) h.length = some o := by
  simp [Heap.getObj, List.get?_eq_getElem?]

theorem heap_getObj_setProp_same (h : Heap) (id : Nat) (k : String) (d : PropDesc)
    (o : Obj) (ho : h.getObj id = some o) :
    (h.setProp id k d).getObj id = some (o.setProp k d) := by
  have hlt : id < h.length := heap_getObj_lt h id o ho
  simp only [Heap.setProp, Heap.getObj] at *
  rw [ho]
  simp [List.get?_eq_getElem?, List.getElem?_set_self, hlt]

theorem heap_getObj_setProp_ne (h : Heap) (id : Nat) (k : String) (d : PropDesc)
    (j : Nat) (hj : j ≠ id) : (h.setProp id k d).getObj j = h.getObj j := by
  simp only [Heap.setProp]
  cases hx : h.get? id with
  | none => rfl
  | some o =>
    simp [Heap.getObj, List.get?_eq_getElem?, List.getElem?_set_ne (Ne.symm hj)]

theorem heap_getObj_setHome_same (h : Heap) (id home : Nat) (o : Obj)
    (ho : h.getObj id = some o) :
    (h.setHome id home).getObj id = some { o with homeObject := some home } := by
  have hlt : id < h.length := heap_getObj_lt h id o ho
  simp only [Heap.setHome, Heap.getObj] at *
  rw [ho]
  simp [List.get?_eq_getElem?, List.getElem?_set_self, hlt]

theorem heap_getObj_setHome_ne (h : Heap) (id home : Nat) (j : Nat) (hj : j ≠ id) :
    (h.setHome id home).getObj j = h.getObj j := by
  simp only [Heap.setHome]
  cases hx : h.get? id with
  | none => rfl
  | some o =>
    simp [Heap.getObj, List.get?_eq_getElem?, List.getElem?_set_ne (Ne.symm hj)]

theorem obj_getProp_setProp_same (o : Obj) (k : String) (d : PropDesc) :
    (o.setProp k d).getProp k = some d := by
  simp only [Obj.setProp, Obj.getProp]
  induction o.props with
  | nil => simp [List.find?]
  | cons x xs ih =>
    by_cases hx : x.1 = k
    · simp [List.filter_cons, hx, ih]
    · simp only [List.filter_cons, decide_not, hx, decide_False, Bool.not_false,
        if_true, List.cons_append, List.find?]
      have hbeq : (x.1 == k) = false := by simp [hx]
      simp [hbeq, ih]

/-- Witness for C2: the general theorem applied to `f(a, ...rest)` invoked
with `[1, 2, 3, 4]` — the rest array holds the three trailing arguments and
is spliced in and pushed. -/
theorem c2_witness :
    (restParameterInit ctxRest4).stack = [.integer 1, .object 0, .undefined, .object 0]
      ∧ (restParameterInit ctxRest4).eff.heap
          = [mkArrayObj [.integer 2, .integer 3, .integer 4]] := by
  have hx := (c2_rest_parameter_materialization.1 ctxRest4 []
      [.integer 1, .integer 2, .integer 3, .integer 4] [.undefined]
      rfl rfl rfl (by decide)).1 (by decide)
  rw [hx.1]
  exact ⟨rfl, rfl⟩

/-!
## Claim C8 — class-prototype wiring

For every class function object and every resolved parent-prototype value
(an object, `null`, or `undefined` standing for the base object prototype),
`SetClassPrototype::operation` allocates a fresh plain object with that
parent as its prototype, installs it as the class's non-writable /
non-enumerable / non-configurable `prototype` property, records it as the
class function's home object, gives it a writable / non-enumerable /
configurable `constructor` property pointing back at the class, and writes
it to the output slot.
-/

/-- Claim C8: the fresh prototype object (allocated at the next heap id) has
the resolved parent as its prototype and a `constructor` property pointing
back at the class with attributes writable/non-enumerable/configurable; the
class gains a `prototype` property holding the fresh object with all three
attributes false and records it as home object; the fresh object lands in
the output slot — hence `A.prototype.constructor === A` and `A.prototype` is
non-writable and non-configurable. -/
theorem c8_class_prototype_wiring :
    ∀ (ctx : Ctx) (dst pIx cIx cid : Nat) (co : Obj) (pparent : Option Nat),
      ctx.stack.getD (ctx.frame.rp + cIx) .undefined = .object cid →
      ctx.eff.heap.getObj cid = some co →
      co.isFunction = true →
      protoParentOf (ctx.stack.getD (ctx.frame.rp + pIx) .undefined) ctx = some pparent →
      ∃ ctx2, setClassPrototypeOperation dst pIx cIx ctx = some (.ok .normal, ctx2)
        ∧ ctx.eff.heap.getObj ctx.eff.heap.length = none
        ∧ ctx2.stack = ctx.stack.set (ctx.frame.rp + dst) (.object ctx.eff.heap.length)
        ∧ ctx2.eff.log = ctx.eff.log
        ∧ (∃ po, ctx2.eff.heap.getObj ctx.eff.heap.length = some po
            ∧ po.proto = pparent
            ∧ po.getProp ("constructor")
                = some { value := .object cid, writable := true, enumerable := false,
                         configurable := true }
            ∧ (∀ d, po.getProp ("constructor") = some d →
                strictEquals d.value (.object cid) = true))
        ∧ (∃ co2, ctx2.eff.heap.getObj cid = some co2
            ∧ co2.getProp ("prototype")
                = some { value := .object ctx.eff.heap.length, writable := false,
                         enumerable := false, configurable := false }
            ∧ co2.homeObject = some ctx.eff.heap.length) := by
  intro ctx dst pIx cIx cid co pparent hcls hco hfn hpp
  have hlt : cid < ctx.eff.heap.length := heap_getObj_lt _ _ _ hco
  have hne : cid ≠ ctx.eff.heap.length := by omega
  have hfresh : ctx.eff.heap.getObj ctx.eff.heap.length = none := by
    simp [Heap.getObj]
  have h1co : Heap.getObj (ctx.eff.heap ++ [mkOrdinaryObj pparent]) cid = some co :=
    (heap_getObj_append_lt _ _ _ hlt).trans hco
  refine ⟨{ ctx with
            eff := { ctx.eff with
              heap := (((ctx.eff.heap ++ [mkOrdinaryObj pparent]).setProp cid ("prototype")
                  { value := .object ctx.eff.heap.length, writable := false,
                    enumerable := false, configurable := false }).setHome cid
                    ctx.eff.heap.length).setProp ctx.eff.heap.length ("constructor")
                  { value := .object cid, writable := true, enumerable := false,
                    configurable := true } },
            stack := ctx.stack.set (ctx.frame.rp + dst)
              (.object ctx.eff.heap.length) }, ?_, hfresh, rfl, rfl, ?_, ?_⟩
  · simp only [setClassPrototypeOperation, hpp, Heap.allocObj, hcls, JsValue.asObject,
      h1co, hfn, if_true]
  · -- the fresh prototype object
    refine ⟨(mkOrdinaryObj pparent).setProp ("constructor")
      { value := .object cid, writable := true, enumerable := false,
        configurable := true }, ?_, ?_, ?_, ?_⟩
    · exact heap_getObj_setProp_same _ _ _ _ _
        (((heap_getObj_setHome_ne _ cid _ _ (Ne.symm hne)).trans
          ((heap_getObj_setProp_ne _ cid _ _ _ (Ne.symm hne)).trans
            (heap_getObj_append_self _ _))))
    · simp [Obj.setProp, mkOrdinaryObj]
    · exact obj_getProp_setProp_same _ _ _
    · intro d hd
      rw [obj_getProp_setProp_same] at hd
      cases hd
      simp [strictEquals]
  · -- the class object
    have h2 : ((ctx.eff.heap ++ [mkOrdinaryObj pparent]).setProp cid ("prototype")
          { value := .object ctx.eff.heap.length, writable := false, enumerable := false,
            configurable := false }).getObj cid
        = some (co.setProp ("prototype")
            { value := .object ctx.eff.heap.length, writable := false, enumerable := false,
              configurable := false }) :=
      heap_getObj_setProp_same _ _ _ _ _ h1co
    have h3 := heap_getObj_setHome_same _ cid ctx.eff.heap.length _ h2
    have h4 := (heap_getObj_setProp_ne _ (ctx.eff.heap.length) ("constructor")
        { value := JsValue.object cid, writable := true, enumerable := false,
          configurable := true } cid hne).trans h3
    refine ⟨_, h4, ?_, rfl⟩
    have hgp : ∀ (o : Obj) (hm : Option Nat) (k : String),
        Obj.getProp { o with homeObject := hm } k = o.getProp k := by
      intro o hm k
      rfl
    rw [hgp]
    exact obj_getProp_setProp_same _ _ _

/-- Witness for C8: wiring `class A {}` (the function object at heap id 1,
parent prototype resolved from `undefined` to the base object prototype at
heap id 0) produces the claimed prototype/constructor/home-object shape. -/
theorem c8_witness :
    ∃ ctx2, setClassPrototypeOperation 2 1 0 ctxClass = some (.ok .normal, ctx2)
      ∧ ctxClass.eff.heap.getObj ctxClass.eff.heap.length = none
      ∧ ctx2.stack = ctxClass.stack.set (ctxClass.frame.rp + 2)
          (.object ctxClass.eff.heap.length)
      ∧ ctx2.eff.log = ctxClass.eff.log
      ∧ (∃ po, ctx2.eff.heap.getObj ctxClass.eff.heap.length = some po
          ∧ po.proto = some 0
          ∧ po.getProp ("constructor")
              = some { value := .object 1, writable := true, enumerable := false,
                       configurable := true }
          ∧ (∀ d, po.getProp ("constructor") = some d →
              strictEquals d.value (.object 1) = true))
      ∧ (∃ co2, ctx2.eff.heap.getObj 1 = some co2
          ∧ co2.getProp ("prototype")
              = some { value := .object ctxClass.eff.heap.length, writable := false,
                       enumerable := false, configurable := false }
          ∧ co2.homeObject = some ctxClass.eff.heap.length) :=
  c8_class_prototype_wiring ctxClass 2 1 0 1 mkFuncObj (some 0) rfl rfl rfl rfl

/-!
## Claim C6 — the three operand widths decode to one shared operation

Each opcode family's three `execute` entry points differ only in the integer
width used to read operands from the instruction stream; each then delegates
to the family's one shared operation function. Reading back an operand
encoded at a width reproduces it exactly, so the three variants compute
identical results on identical decoded operand values.
-/

theorem width_enc_length (w : Width) (n : Nat) : (w.enc n).length = w.size := by
  cases w <;> rfl

theorem width_bound_ge (w : Width) : 256 ≤ w.bound := by
  cases w <;> norm_num [Width.bound]

theorem machine_getD_drop (m : Machine) (k : Nat) :
    m.code.getD (m.pc + k) 0 = (m.code.drop m.pc).getD k 0 := by
  simp [List.getD, List.getElem?_drop]

theorem width_read_enc (w : Width) (n : Nat) (rest : List Nat) (m : Machine)
    (hn : n < w.bound) (h : m.code.drop m.pc = w.enc n ++ rest) :
    w.read m = (n, { m with pc := m.pc + w.size }) := by
  cases w with
  | u8 =>
    have hb : n < 256 := hn
    simp only [Width.read, Machine.readU8, Width.size]
    have h0 := machine_getD_drop m 0
    rw [h] at h0
    simp only [Nat.add_zero] at h0
    rw [h0]
    simp only [Width.enc, List.cons_append, List.getD_cons_zero]
    rw [Nat.mod_eq_of_lt hb]
  | u16 =>
    have hb : n < 65536 := hn
    simp only [Width.read, Machine.readU16, Width.size]
    have h0 := machine_getD_drop m 0
    have h1 := machine_getD_drop m 1
    rw [h] at h0 h1
    simp only [Nat.add_zero] at h0
    rw [h0, h1]
    simp only [Width.enc, List.cons_append, List.getD_cons_zero, List.getD_cons_succ]
    have hv : n % 256 + 256 * (n / 256 % 256) = n := by omega
    rw [hv]
  | u32 =>
    have hb : n < 4294967296 := hn
    simp only [Width.read, Machine.readU32, Width.size]
    have h0 := machine_getD_drop m 0
    have h1 := machine_getD_drop m 1
    have h2 := machine_getD_drop m 2
    have h3 := machine_getD_drop m 3
    rw [h] at h0 h1 h2 h3
    simp only [Nat.add_zero] at h0
    rw [h0, h1, h2, h3]
    simp only [Width.enc, List.cons_append, List.getD_cons_zero, List.getD_cons_succ]
    have hv : n % 256 + 256 * (n / 256 % 256) + 65536 * (n / 65536 % 256)
        + 16777216 * (n / 16777216 % 256) = n := by omega
    rw [hv]

theorem width_drop_after (w : Width) (n : Nat) (rest : List Nat) (m : Machine)
    (h : m.code.drop m.pc = w.enc n ++ rest) :
    m.code.drop (m.pc + w.size) = rest := by
  rw [← List.drop_drop, h, ← width_enc_length w n, List.drop_left]

theorem execOLR_width_spec (w : Width)
    (op : Nat → InstructionOperand → InstructionOperand → Ctx → OpResult × Ctx)
    (o l r : Nat) (c : Ctx) (rest : List Nat)
    (ho : o < w.bound) (hl : l < w.bound) (hr : r < w.bound) :
    execOLR w.read op
        { ctx := c, code := w.enc o ++ w.enc l ++ w.enc r ++ rest, pc := 0 }
      = ((op o (.fromNat l) (.fromNat r) c).1,
         { ctx := (op o (.fromNat l) (.fromNat r) c).2,
           code := w.enc o ++ w.enc l ++ w.enc r ++ rest,
           pc := 0 + w.size + w.size + w.size }) := by
  have hd0 : ({ ctx := c, code := w.enc o ++ w.enc l ++ w.enc r ++ rest, pc := 0 }
      : Machine).code.drop 0 = w.enc o ++ (w.enc l ++ (w.enc r ++ rest)) := by
    simp [List.append_assoc]
  have hr1 := width_read_enc w o (w.enc l ++ (w.enc r ++ rest))
    { ctx := c, code := w.enc o ++ w.enc l ++ w.enc r ++ rest, pc := 0 } ho hd0
  have hd1 := width_drop_after w o (w.enc l ++ (w.enc r ++ rest))
    { ctx := c, code := w.enc o ++ w.enc l ++ w.enc r ++ rest, pc := 0 } hd0
  have hr2 := width_read_enc w l (w.enc r ++ rest)
    { ctx := c, code := w.enc o ++ w.enc l ++ w.enc r ++ rest, pc := 0 + w.size } hl hd1
  have hd2 := width_drop_after w l (w.enc r ++ rest)
    { ctx := c, code := w.enc o ++ w.enc l ++ w.enc r ++ rest, pc := 0 + w.size } hd1
  have hr3 := width_read_enc w r rest
    { ctx := c, code := w.enc o ++ w.enc l ++ w.enc r ++ rest,
      pc := 0 + w.size + w.size } hr hd2
  simp only [execOLR, hr1, hr2, hr3]

theorem execDS_width_spec (w : Width) (op : Nat → Nat → Ctx → OpResult × Ctx)
    (d s : Nat) (c : Ctx) (rest : List Nat)
    (hd : d < w.bound) (hs : s < w.bound) :
    execDS w.read op { ctx := c, code := w.enc d ++ w.enc s ++ rest, pc := 0 }
      = ((op s d c).1,
         { ctx := (op s d c).2, code := w.enc d ++ w.enc s ++ rest,
           pc := 0 + w.size + w.size }) := by
  have hd0 : ({ ctx := c, code := w.enc d ++ w.enc s ++ rest, pc := 0 }
      : Machine).code.drop 0 = w.enc d ++ (w.enc s ++ rest) := by
    simp [List.append_assoc]
  have hr1 := width_read_enc w d (w.enc s ++ rest)
    { ctx := c, code := w.enc d ++ w.enc s ++ rest, pc := 0 } hd hd0
  have hd1 := width_drop_after w d (w.enc s ++ rest)
    { ctx := c, code := w.enc d ++ w.enc s ++ rest, pc := 0 } hd0
  have hr2 := width_read_enc w s rest
    { ctx := c, code := w.enc d ++ w.enc s ++ rest, pc := 0 + w.size } hs hd1
  simp only [execDS, hr1, hr2]

theorem execDSOpt_width_spec (w : Width)
    (op : Nat → Nat → Ctx → Option (OpResult × Ctx))
    (d s : Nat) (c : Ctx) (rest : List Nat)
    (hd : d < w.bound) (hs : s < w.bound) :
    execDSOpt w.read op { ctx := c, code := w.enc d ++ w.enc s ++ rest, pc := 0 }
      = (op s d c).map (fun res =>
          (res.1, { ctx := res.2, code := w.enc d ++ w.enc s ++ rest,
                    pc := 0 + w.size + w.size })) := by
  have hd0 : ({ ctx := c, code := w.enc d ++ w.enc s ++ rest, pc := 0 }
      : Machine).code.drop 0 = w.enc d ++ (w.enc s ++ rest) := by
    simp [List.append_assoc]
  have hr1 := width_read_enc w d (w.enc s ++ rest)
    { ctx := c, code := w.enc d ++ w.enc s ++ rest, pc := 0 } hd hd0
  have hd1 := width_drop_after w d (w.enc s ++ rest)
    { ctx := c, code := w.enc d ++ w.enc s ++ rest, pc := 0 } hd0
  have hr2 := width_read_enc w s rest
    { ctx := c, code := w.enc d ++ w.enc s ++ rest, pc := 0 + w.size } hs hd1
  simp only [execDSOpt, hr1, hr2]
  cases op s d c <;> rfl

theorem execDPC_width_spec (w : Width)
    (op : Nat → Nat → Nat → Ctx → Option (OpResult × Ctx))
    (d p q : Nat) (c : Ctx) (rest : List Nat)
    (hd : d < w.bound) (hp : p < w.bound) (hq : q < w.bound) :
    execDPC w.read op { ctx := c, code := w.enc d ++ w.enc p ++ w.enc q ++ rest, pc := 0 }
      = (op d p q c).map (fun res =>
          (res.1, { ctx := res.2, code := w.enc d ++ w.enc p ++ w.enc q ++ rest,
                    pc := 0 + w.size + w.size + w.size })) := by
  have hd0 : ({ ctx := c, code := w.enc d ++ w.enc p ++ w.enc q ++ rest, pc := 0 }
      : Machine).code.drop 0 = w.enc d ++ (w.enc p ++ (w.enc q ++ rest)) := by
    simp [List.append_assoc]
  have hr1 := width_read_enc w d (w.enc p ++ (w.enc q ++ rest))
    { ctx := c, code := w.enc d ++ w.enc p ++ w.enc q ++ rest, pc := 0 } hd hd0
  have hd1 := width_drop_after w d (w.enc p ++ (w.enc q ++ rest))
    { ctx := c, code := w.enc d ++ w.enc p ++ w.enc q ++ rest, pc := 0 } hd0
  have hr2 := width_read_enc w p (w.enc q ++ rest)
    { ctx := c, code := w.enc d ++ w.enc p ++ w.enc q ++ rest, pc := 0 + w.size } hp hd1
  have hd2 := width_drop_after w p (w.enc q ++ rest)
    { ctx := c, code := w.enc d ++ w.enc p ++ w.enc q ++ rest, pc := 0 + w.size } hd1
  have hr3 := width_read_enc w q rest
    { ctx := c, code := w.enc d ++ w.enc p ++ w.enc q ++ rest,
      pc := 0 + w.size + w.size } hq hd2
  simp only [execDPC, hr1, hr2, hr3]
  cases op d p q c <;> rfl

/-- Claim C6: for every width, executing a width-specific variant on a
stream encoding the operands at that width yields exactly the shared
operation function applied to the decoded operands (with only the program
counter advanced by the width-specific amount) — for the generic
macro-defined binary body, the equality opcodes, `In`, `ToNumeric`, `Inc`
and `SetClassPrototype`; consequently, for operands in the common range, any
two widths produce identical completion results and identical contexts for
every operand-shape family. -/
theorem c6_width_variants_agree :
    (∀ (w : Width) (f : JsValue → JsValue → Eff → Except JsError JsValue × Eff)
        (o l r : Nat) (c : Ctx) (rest : List Nat),
        o < w.bound → l < w.bound → r < w.bound →
          binOpExecuteW f w
              { ctx := c, code := w.enc o ++ w.enc l ++ w.enc r ++ rest, pc := 0 }
            = ((binOpOperation f o (.fromNat l) (.fromNat r) c).1,
               { ctx := (binOpOperation f o (.fromNat l) (.fromNat r) c).2,
                 code := w.enc o ++ w.enc l ++ w.enc r ++ rest,
                 pc := 0 + w.size + w.size + w.size }))
      ∧ (∀ (w : Width) (o l r : Nat) (c : Ctx) (rest : List Nat),
          o < w.bound → l < w.bound → r < w.bound →
            notEqExecuteW w
                { ctx := c, code := w.enc o ++ w.enc l ++ w.enc r ++ rest, pc := 0 }
              = ((notEqOperation o (.fromNat l) (.fromNat r) c).1,
                 { ctx := (notEqOperation o (.fromNat l) (.fromNat r) c).2,
                   code := w.enc o ++ w.enc l ++ w.enc r ++ rest,
                   pc := 0 + w.size + w.size + w.size }))
      ∧ (∀ (w : Width) (o l r : Nat) (c : Ctx) (rest : List Nat),
          o < w.bound → l < w.bound → r < w.bound →
            strictEqExecuteW w
                { ctx := c, code := w.enc o ++ w.enc l ++ w.enc r ++ rest, pc := 0 }
              = ((strictEqOperation o (.fromNat l) (.fromNat r) c).1,
                 { ctx := (strictEqOperation o (.fromNat l) (.fromNat r) c).2,
                   code := w.enc o ++ w.enc l ++ w.enc r ++ rest,
                   pc := 0 + w.size + w.size + w.size }))
      ∧ (∀ (w : Width) (o l r : Nat) (c : Ctx) (rest : List Nat),
          o < w.bound → l < w.bound → r < w.bound →
            strictNotEqExecuteW w
                { ctx := c, code := w.enc o ++ w.enc l ++ w.enc r ++ rest, pc := 0 }
              = ((strictNotEqOperation o (.fromNat l) (.fromNat r) c).1,
                 { ctx := (strictNotEqOperation o (.fromNat l) (.fromNat r) c).2,
                   code := w.enc o ++ w.enc l ++ w.enc r ++ rest,
                   pc := 0 + w.size + w.size + w.size }))
      ∧ (∀ (w : Width) (o l r : Nat) (c : Ctx) (rest : List Nat),
          o < w.bound → l < w.bound → r < w.bound →
            inExecuteW w
                { ctx := c, code := w.enc o ++ w.enc l ++ w.enc r ++ rest, pc := 0 }
              = ((inOperation o (.fromNat l) (.fromNat r) c).1,
                 { ctx := (inOperation o (.fromNat l) (.fromNat r) c).2,
                   code := w.enc o ++ w.enc l ++ w.enc r ++ rest,
                   pc := 0 + w.size + w.size + w.size }))
      ∧ (∀ (w : Width) (d s : Nat) (c : Ctx) (rest : List Nat),
          d < w.bound → s < w.bound →
            toNumericExecuteW w { ctx := c, code := w.enc d ++ w.enc s ++ rest, pc := 0 }
              = ((toNumericOperation s d c).1,
                 { ctx := (toNumericOperation s d c).2,
                   code := w.enc d ++ w.enc s ++ rest, pc := 0 + w.size + w.size }))
      ∧ (∀ (w : Width) (d s : Nat) (c : Ctx) (rest : List Nat),
          d < w.bound → s < w.bound →
            incExecuteW w { ctx := c, code := w.enc d ++ w.enc s ++ rest, pc := 0 }
              = (incOperation s d c).map (fun res =>
                  (res.1, { ctx := res.2, code := w.enc d ++ w.enc s ++ rest,
                            pc := 0 + w.size + w.size })))
      ∧ (∀ (w : Width) (d p q : Nat) (c : Ctx) (rest : List Nat),
          d < w.bound → p < w.bound → q < w.bound →
            setClassPrototypeExecuteW w
                { ctx := c, code := w.enc d ++ w.enc p ++ w.enc q ++ rest, pc := 0 }
              = (setClassPrototypeOperation d p q c).map (fun res =>
                  (res.1, { ctx := res.2, code := w.enc d ++ w.enc p ++ w.enc q ++ rest,
                            pc := 0 + w.size + w.size + w.size })))
      ∧ (∀ (w1 w2 : Width)
          (op : Nat → InstructionOperand → InstructionOperand → Ctx → OpResult × Ctx)
          (o l r : Nat) (c : Ctx) (rest1 rest2 : List Nat),
          o < 256 → l < 256 → r < 256 →
            (execOLR w1.read op
                { ctx := c, code := w1.enc o ++ w1.enc l ++ w1.enc r ++ rest1, pc := 0 }).1
              = (execOLR w2.read op
                  { ctx := c, code := w2.enc o ++ w2.enc l ++ w2.enc r ++ rest2, pc := 0 }).1
            ∧ (execOLR w1.read op
                { ctx := c, code := w1.enc o ++ w1.enc l ++ w1.enc r ++ rest1, pc := 0 }).2.ctx
              = (execOLR w2.read op
                  { ctx := c, code := w2.enc o ++ w2.enc l ++ w2.enc r ++ rest2, pc := 0 }).2.ctx) := by
  refine ⟨?_, ?_, ?_, ?_, ?_, ?_, ?_, ?_, ?_⟩
  · intro w f o l r c rest ho hl hr
    exact execOLR_width_spec w (binOpOperation f) o l r c rest ho hl hr
  · intro w o l r c rest ho hl hr
    exact execOLR_width_spec w notEqOperation o l r c rest ho hl hr
  · intro w o l r c rest ho hl hr
    exact execOLR_width_spec w strictEqOperation o l r c rest ho hl hr
  · intro w o l r c rest ho hl hr
    exact execOLR_width_spec w strictNotEqOperation o l r c rest ho hl hr
  · intro w o l r c rest ho hl hr
    exact execOLR_width_spec w inOperation o l r c rest ho hl hr
  · intro w d s c rest hd hs
    exact execDS_width_spec w toNumericOperation d s c rest hd hs
  · intro w d s c rest hd hs
    exact execDSOpt_width_spec w incOperation d s c rest hd hs
  · intro w d p q c rest hd hp hq
    exact execDPC_width_spec w setClassPrototypeOperation d p q c rest hd hp hq
  · intro w1 w2 op o l r c rest1 rest2 ho hl hr
    have s1 := execOLR_width_spec w1 op o l r c rest1
      (lt_of_lt_of_le ho (width_bound_ge w1)) (lt_of_lt_of_le hl (width_bound_ge w1))
      (lt_of_lt_of_le hr (width_bound_ge w1))
    have s2 := execOLR_width_spec w2 op o l r c rest2
      (lt_of_lt_of_le ho (width_bound_ge w2)) (lt_of_lt_of_le hl (width_bound_ge w2))
      (lt_of_lt_of_le hr (width_bound_ge w2))
    rw [s1, s2]
    exact ⟨rfl, rfl⟩

/-- Witness for C6: the narrow-width `In` variant on the byte stream
`[2, 0, 2]` decodes output slot 2, lhs register 0, rhs register 1 and
delegates to `In::operation` on the `"x" in {}` context. -/
theorem c6_witness :
    inExecuteW .u8 { ctx := ctxInEmpty, code := [2, 0, 2], pc := 0 }
      = ((inOperation 2 (.register 0) (.register 1) ctxInEmpty).1,
         { ctx := (inOperation 2 (.register 0) (.register 1) ctxInEmpty).2,
           code := [2, 0, 2], pc := 3 }) :=
  c6_width_variants_agree.2.2.2.2.1 .u8 2 0 2 ctxInEmpty []
    (by decide) (by decide) (by decide)

/-!
## Claim C9 — left operand compiled before right operand

`compile_binary` first compiles the left operand, then (per operator
category) at most one intermediate instruction, then the right operand, then
the operator tail — so every instruction emitted for `a` precedes every
instruction emitted for `b`; for the logical operators the single
intermediate instruction is the conditional-skip, patched to jump past the
right operand's code.
-/

theorem cstate_emit_buffer (st : CState) (i : Instr) :
    (st.emit i).buffer = st.buffer ++ [i] := rfl

theorem cstate_emitWithOperand_fst (st : CState) (o : Opc) :
    (st.emitWithOperand o).1 = st.buffer.length := rfl

theorem relationalLower_buffer (rop : RelationalOp) (output : Nat) (st : CState) :
    ∃ t, ((relationalLower rop output st).1).buffer = st.buffer ++ t := by
  cases rop <;>
    simp [relationalLower, CState.emit, CState.allocReg, CState.deallocReg,
      List.append_assoc]

theorem compileExpr_buffer_append :
    ∀ (e : Expr) (u : Bool) (o : Nat) (st : CState),
      ∃ d, ((compileExpr e u o st).1).buffer = st.buffer ++ d := by
  intro e
  induction e with
  | leaf t =>
    intro u o st
    cases u with
    | false =>
      refine ⟨[Instr.leaf t, Instr.plain .pop], ?_⟩
      simp [compileExpr, CState.emit]
    | true =>
      refine ⟨[Instr.leaf t], ?_⟩
      simp [compileExpr, CState.emit]
  | binary op a b iha ihb =>
    intro u o st
    obtain ⟨dA, hA⟩ := iha true 0 st
    cases op with
    | arithmetic aop =>
      obtain ⟨dB, hB⟩ := ihb true 0 ((compileExpr a true 0 st).1)
      cases u with
      | false =>
        refine ⟨dA ++ (dB ++ [Instr.plain (arithOpc aop), Instr.plain .pop]), ?_⟩
        simp only [compileExpr, CState.emit, Bool.false_eq_true, if_false]
        rw [hB, hA]
        simp [List.append_assoc]
      | true =>
        refine ⟨dA ++ (dB ++ [Instr.plain (arithOpc aop)]), ?_⟩
        simp only [compileExpr, CState.emit, if_true]
        rw [hB, hA]
        simp [List.append_assoc]
    | bitwise bop =>
      obtain ⟨dB, hB⟩ := ihb true 0 ((compileExpr a true 0 st).1)
      cases u with
      | false =>
        refine ⟨dA ++ (dB ++ [Instr.plain (bitwiseOpc bop), Instr.plain .pop]), ?_⟩
        simp only [compileExpr, CState.emit, Bool.false_eq_true, if_false]
        rw [hB, hA]
        simp [List.append_assoc]
      | true =>
        refine ⟨dA ++ (dB ++ [Instr.plain (bitwiseOpc bop)]), ?_⟩
        simp only [compileExpr, CState.emit, if_true]
        rw [hB, hA]
        simp [List.append_assoc]
    | relational rop =>
      obtain ⟨dB, hB⟩ := ihb true 0 ((compileExpr a true 0 st).1)
      obtain ⟨t, ht⟩ := relationalLower_buffer rop o
        ((compileExpr b true 0 ((compileExpr a true 0 st).1)).1)
      simp only [compileExpr]
      split
      · refine ⟨dA ++ (dB ++ (t ++ [Instr.plain .pop])), ?_⟩
        simp only [CState.emit]
        rw [ht, hB, hA]
        simp [List.append_assoc]
      · refine ⟨dA ++ (dB ++ t), ?_⟩
        rw [ht, hB, hA]
        simp [List.append_assoc]
    | logical lop =>
      obtain ⟨dB, hB⟩ := ihb true 0
        (((compileExpr a true 0 st).1).emitWithOperand (logicalOpc lop)).2
      have hBuf : ((compileExpr b true 0
            (((compileExpr a true 0 st).1).emitWithOperand (logicalOpc lop)).2).1).buffer
          = st.buffer ++ (dA ++ ([Instr.jump (logicalOpc lop) 0] ++ dB)) := by
        rw [hB]
        simp only [CState.emitWithOperand, hA, List.append_assoc]
      have hset : ∀ (v : Instr),
          ((st.buffer ++ (dA ++ ([Instr.jump (logicalOpc lop) 0] ++ dB))).set
              ((compileExpr a true 0 st).1).buffer.length v)
            = st.buffer ++ (dA ++ (v :: dB)) := by
        intro v
        rw [← List.append_assoc, list_set_append_right _ _ _ _ (by simp [hA])]
        have hz : ((compileExpr a true 0 st).1).buffer.length
            - (st.buffer ++ dA).length = 0 := by simp [hA]
        rw [hz]
        simp [List.append_assoc]
      have hgetD : (st.buffer ++ (dA ++ ([Instr.jump (logicalOpc lop) 0] ++ dB))).getD
            ((compileExpr a true 0 st).1).buffer.length (Instr.plain .pop)
          = Instr.jump (logicalOpc lop) 0 := by
        have hlenA : ((compileExpr a true 0 st).1).buffer.length
            = (st.buffer ++ dA).length := by rw [hA]
        rw [← List.append_assoc, hlenA, list_getD_append_right _ _ _ _ (le_refl _)]
        simp
      cases u with
      | false =>
        simp only [compileExpr, CState.patchJump, Bool.false_eq_true, if_false,
          cstate_emit_buffer, cstate_emitWithOperand_fst, hBuf, hgetD, patchTarget,
          hset, List.append_assoc]
        exact ⟨_, rfl⟩
      | true =>
        simp only [compileExpr, CState.patchJump, if_true,
          cstate_emitWithOperand_fst, hBuf, hgetD, patchTarget, hset,
          List.append_assoc]
        exact ⟨_, rfl⟩
    | comma =>
      obtain ⟨dB, hB⟩ := ihb true 0 (((compileExpr a true 0 st).1).emit (.plain .pop))
      have hB2 : ((compileExpr b true 0
            (((compileExpr a true 0 st).1).emit (.plain .pop))).1).buffer
          = st.buffer ++ (dA ++ ([Instr.plain .pop] ++ dB)) := by
        rw [hB]
        simp only [CState.emit, hA, List.append_assoc]
      cases u with
      | false =>
        refine ⟨dA ++ ([Instr.plain .pop] ++ (dB ++ [Instr.plain .pop])), ?_⟩
        simp only [compileExpr, Bool.false_eq_true, if_false, cstate_emit_buffer, hB2]
        simp [List.append_assoc]
      | true =>
        refine ⟨dA ++ ([Instr.plain .pop] ++ dB), ?_⟩
        simp only [compileExpr, if_true]
        rw [hB2]

/-- One `compileExpr` call only appends: its result buffer is the incoming
buffer followed by exactly the instructions it emitted. -/
theorem emitted_spec (e : Expr) (u : Bool) (o : Nat) (st : CState) :
    ((compileExpr e u o st).1).buffer = st.buffer ++ emitted e u o st := by
  obtain ⟨d, hd⟩ := compileExpr_buffer_append e u o st
  rw [emitted, hd, List.drop_left]

/-- Claim C9: the buffer produced by lowering `a OP b` is the incoming
buffer, then exactly the code emitted for `a`, then at most one intermediate
instruction, then exactly the code emitted for `b` (compiled from a state
that already contains `a`'s code and at most one further instruction), then
the operator tail — so every instruction of `a` precedes every instruction
of `b`; and for a logical operator the single intermediate instruction is
the conditional-skip whose patched target is the position just past `b`'s
code. -/
theorem c9_left_operand_first :
    ∀ (op : BinaryOp) (a b : Expr) (u : Bool) (o : Nat) (st : CState),
      (∃ stB mid preMid post,
          ((compileExpr (.binary op a b) u o st).1).buffer
              = st.buffer ++ emitted a true 0 st ++ mid ++ emitted b true 0 stB ++ post
            ∧ stB.buffer = st.buffer ++ emitted a true 0 st ++ preMid
            ∧ preMid.length ≤ 1 ∧ mid.length ≤ 1)
      ∧ (∀ lop, op = .logical lop →
          ((compileExpr (.binary op a b) u o st).1).buffer
            = st.buffer ++ emitted a true 0 st
              ++ [Instr.jump (logicalOpc lop)
                    (st.buffer.length + (emitted a true 0 st).length + 1
                      + (emitted b true 0
                          (((compileExpr a true 0 st).1).emitWithOperand
                            (logicalOpc lop)).2).length)]
              ++ emitted b true 0
                  (((compileExpr a true 0 st).1).emitWithOperand (logicalOpc lop)).2
              ++ (if u then ([] : List Instr) else [Instr.plain .pop])) := by
  intro op a b u o st
  have hA := emitted_spec a true 0 st
  cases op with
  | arithmetic aop =>
    have hB := emitted_spec b true 0 ((compileExpr a true 0 st).1)
    refine ⟨⟨(compileExpr a true 0 st).1, [], [],
      (if u then [Instr.plain (arithOpc aop)]
        else [Instr.plain (arithOpc aop), Instr.plain .pop]), ?_, ?_, ?_, ?_⟩, ?_⟩
    · cases u <;>
        simp [compileExpr, cstate_emit_buffer, hB, hA, List.append_assoc]
    · simp [hA]
    · simp
    · simp
    · intro lop hlop
      simp at hlop
  | bitwise bop =>
    have hB := emitted_spec b true 0 ((compileExpr a true 0 st).1)
    refine ⟨⟨(compileExpr a true 0 st).1, [], [],
      (if u then [Instr.plain (bitwiseOpc bop)]
        else [Instr.plain (bitwiseOpc bop), Instr.plain .pop]), ?_, ?_, ?_, ?_⟩, ?_⟩
    · cases u <;>
        simp [compileExpr, cstate_emit_buffer, hB, hA, List.append_assoc]
    · simp [hA]
    · simp
    · simp
    · intro lop hlop
      simp at hlop
  | relational rop =>
    have hB := emitted_spec b true 0 ((compileExpr a true 0 st).1)
    obtain ⟨t, ht⟩ := relationalLower_buffer rop o
      ((compileExpr b true 0 ((compileExpr a true 0 st).1)).1)
    refine ⟨?_, ?_⟩
    · simp only [compileExpr]
      split
      · refine ⟨(compileExpr a true 0 st).1, [], [], t ++ [Instr.plain .pop],
          ?_, by simp [hA], by simp, by simp⟩
        simp only [cstate_emit_buffer, ht, hB, hA, List.append_assoc,
          List.nil_append]
      · refine ⟨(compileExpr a true 0 st).1, [], [], t,
          ?_, by simp [hA], by simp, by simp⟩
        simp only [ht, hB, hA, List.append_assoc, List.nil_append]
    · intro lop hlop
      simp at hlop
  | logical lop0 =>
    have hB := emitted_spec b true 0
      (((compileExpr a true 0 st).1).emitWithOperand (logicalOpc lop0)).2
    have hBuf : ((compileExpr b true 0
          (((compileExpr a true 0 st).1).emitWithOperand (logicalOpc lop0)).2).1).buffer
        = st.buffer ++ (emitted a true 0 st ++ ([Instr.jump (logicalOpc lop0) 0]
            ++ emitted b true 0
                (((compileExpr a true 0 st).1).emitWithOperand (logicalOpc lop0)).2)) := by
      rw [hB]
      simp only [CState.emitWithOperand, hA, List.append_assoc]
    have hset : ∀ (v : Instr),
        ((st.buffer ++ (emitted a true 0 st ++ ([Instr.jump (logicalOpc lop0) 0]
              ++ emitted b true 0
                  (((compileExpr a true 0 st).1).emitWithOperand (logicalOpc lop0)).2))).set
            ((compileExpr a true 0 st).1).buffer.length v)
          = st.buffer ++ (emitted a true 0 st ++ (v :: emitted b true 0
              (((compileExpr a true 0 st).1).emitWithOperand (logicalOpc lop0)).2)) := by
      intro v
      rw [← List.append_assoc, list_set_append_right _ _ _ _ (by simp [hA])]
      have hz : ((compileExpr a true 0 st).1).buffer.length
          - (st.buffer ++ emitted a true 0 st).length = 0 := by simp [hA]
      rw [hz]
      simp [List.append_assoc]
    have hgetD : (st.buffer ++ (emitted a true 0 st ++ ([Instr.jump (logicalOpc lop0) 0]
            ++ emitted b true 0
                (((compileExpr a true 0 st).1).emitWithOperand (logicalOpc lop0)).2))).getD
          ((compileExpr a true 0 st).1).buffer.length (Instr.plain .pop)
        = Instr.jump (logicalOpc lop0) 0 := by
      have hlenA : ((compileExpr a true 0 st).1).buffer.length
          = (st.buffer ++ emitted a true 0 st).length := by rw [hA]
      rw [← List.append_assoc, hlenA, list_getD_append_right _ _ _ _ (le_refl _)]
      simp
    have hT : (st.buffer ++ (emitted a true 0 st ++ ([Instr.jump (logicalOpc lop0) 0]
          ++ emitted b true 0
              (((compileExpr a true 0 st).1).emitWithOperand (logicalOpc lop0)).2))).length
        = st.buffer.length + (emitted a true 0 st).length + 1
          + (emitted b true 0
              (((compileExpr a true 0 st).1).emitWithOperand (logicalOpc lop0)).2).length := by
      simp
      omega
    have hmain : ((compileExpr (.binary (.logical lop0) a b) u o st).1).buffer
        = st.buffer ++ emitted a true 0 st
          ++ [Instr.jump (logicalOpc lop0)
                (st.buffer.length + (emitted a true 0 st).length + 1
                  + (emitted b true 0
                      (((compileExpr a true 0 st).1).emitWithOperand
                        (logicalOpc lop0)).2).length)]
          ++ emitted b true 0
              (((compileExpr a true 0 st).1).emitWithOperand (logicalOpc lop0)).2
          ++ (if u then ([] : List Instr) else [Instr.plain .pop]) := by
      cases u with
      | false =>
        simp only [compileExpr, CState.patchJump, Bool.false_eq_true, if_false,
          cstate_emit_buffer, cstate_emitWithOperand_fst, hBuf, hgetD, patchTarget,
          hT, hset, List.append_assoc]
        simp
      | true =>
        simp only [compileExpr, CState.patchJump, if_true,
          cstate_emitWithOperand_fst, hBuf, hgetD, patchTarget, hT, hset,
          List.append_assoc, List.append_nil]
        simp
    refine ⟨⟨(((compileExpr a true 0 st).1).emitWithOperand (logicalOpc lop0)).2,
      [Instr.jump (logicalOpc lop0)
        (st.buffer.length + (emitted a true 0 st).length + 1
          + (emitted b true 0
              (((compileExpr a true 0 st).1).emitWithOperand (logicalOpc lop0)).2).length)],
      [Instr.jump (logicalOpc lop0) 0],
      (if u then ([] : List Instr) else [Instr.plain .pop]), ?_, ?_, ?_, ?_⟩, ?_⟩
    · rw [hmain]
    · simp only [CState.emitWithOperand, hA]
    · simp
    · simp
    · intro lop hlop
      injection hlop with he
      subst he
      exact hmain
  | comma =>
    have hB := emitted_spec b true 0 (((compileExpr a true 0 st).1).emit (.plain .pop))
    have hB2 : ((compileExpr b true 0
          (((compileExpr a true 0 st).1).emit (.plain .pop))).1).buffer
        = st.buffer ++ (emitted a true 0 st ++ ([Instr.plain .pop]
            ++ emitted b true 0 (((compileExpr a true 0 st).1).emit (.plain .pop)))) := by
      rw [hB]
      simp only [cstate_emit_buffer, hA, List.append_assoc]
    refine ⟨⟨((compileExpr a true 0 st).1).emit (.plain .pop), [Instr.plain .pop],
      [Instr.plain .pop], (if u then ([] : List Instr) else [Instr.plain .pop]),
      ?_, ?_, ?_, ?_⟩, ?_⟩
    · cases u with
      | false =>
        simp only [compileExpr, Bool.false_eq_true, if_false, cstate_emit_buffer, hB2,
          List.append_assoc]
      | true =>
        simp only [compileExpr, if_true, hB2, List.append_assoc, List.append_nil]
    · simp [cstate_emit_buffer, hA]
    · simp
    · simp
    · intro lop hlop
      simp at hlop

/-- Witness for C9: lowering `leaf0 && leaf1` from the fresh state emits
`a`'s instruction, then the conditional-skip patched to jump past `b`'s
code, then `b`'s instruction. -/
theorem c9_witness :
    ((compileExpr (.binary (.logical .andOp) (.leaf 0) (.leaf 1)) true 0 cstate0).1).buffer
      = [Instr.leaf 0, Instr.jump .logicalAnd 3, Instr.leaf 1] := by
  have h := (c9_left_operand_first (.logical .andOp) (.leaf 0) (.leaf 1) true 0 cstate0).2
    .andOp rfl
  rw [h]
  rfl

end Boa
